import Mathlib

/-!
Verification development for the schema-validator repository: a shallow
embedding of the version-lifecycle and referential-integrity core
(SchemaRepository, ConfigurationRepository, SchemaService,
ConfigurationService, NotificationService) together with theorems about
its behaviour.

Modelling conventions:
- The MongoDB collections are lists of documents in insertion order.
  `findOne` is the first match, `insertOne` appends, `deleteOne` removes
  the first match, `deleteMany`/`updateMany` act on all matches.  The
  storage engine's `sort: \x7bversion: -1\x7d` is modelled by a stable insertion
  sort by version, descending (the engine itself is an external
  collaborator of the repository).
- The AJV JSON-Schema library is external; it is modelled by a record of
  functions `Ajv` (meta-validation, compilation success, validator
  outcome).  JSON-Schema documents and JSON payloads are opaque strings.
- TypeScript `throw` is `Except.error`; state mutated before a throw is
  kept (there are no transactions), so operations return
  `Except String A × St`.
- `await NotificationService.publish(...)` appears as a match on the
  publish result: a rejected promise would propagate to the caller.
- Error messages follow the source but elide single quotes and the
  dynamic AJV error text.
-/

deriving instance DecidableEq for Except

namespace SchemaValidator

/-- Model of the external AJV library: `validateSchema` is meta-validation
of a schema document, `compileOk` tells whether `ajv.compile` succeeds,
`run` is the compiled validator applied to data, `errorsOf` the error list
reported for invalid data. -/
structure Ajv where
  validateSchema : String → Bool
  compileOk : String → Bool
  run : String → String → Bool
  errorsOf : String → String → List String

/-- A schema document as stored (entity shape, `id` is the Mongo `_id`
as a string; `schemaId` groups the versions of one logical schema). -/
structure SchemaDoc where
  id : String
  schemaId : String
  version : Nat
  active : Bool
  type : String
  name : String
  description : String
  schema : String
  deriving Repr, DecidableEq

/-- A configuration document (entity shape).  `configId` groups versions;
`schemaId` stores the referenced schema version's unique `id` (not the
group `schemaId`), as documented in `types/index.ts`. -/
structure ConfigDoc where
  id : String
  configId : String
  version : Nat
  active : Bool
  schemaId : String
  type : String
  name : String
  data : String
  deriving Repr, DecidableEq

/-- Validation result shape `{ valid, errors? }` returned by
`SchemaService.validateData` / `validateDataByVersion`. -/
structure VResult where
  valid : Bool
  errors : List String
  deriving Repr, DecidableEq

/-- Global state: the two collections, the in-memory compiled-validator
cache (a map from schema document `id` to the compiled document, as an
association list), and a counter supplying the fresh identifiers that
Mongo `_id` generation and `Date.now()`-based id generation produce. -/
structure St where
  schemas : List SchemaDoc
  configs : List ConfigDoc
  validators : List (String × String)
  nextOid : Nat
  deriving Repr, DecidableEq

/-- Fresh Mongo object id for the n-th insertion. -/
def freshOid (n : Nat) : String := "oid" ++ toString n

/-- JS `Map.set`: bind key to value, replacing any previous binding. -/
def mapSet (k v : String) (m : List (String × String)) : List (String × String) :=
  (k, v) :: m.filter (fun e => e.1 ≠ k)

/-- JS `Map.get`. -/
def mapGet (k : String) (m : List (String × String)) : Option String :=
  (m.find? (fun e => e.1 == k)).map (fun e => e.2)

/-- JS `Map.delete`. -/
def mapDelete (k : String) (m : List (String × String)) : List (String × String) :=
  m.filter (fun e => e.1 ≠ k)

/-- One character of JS regex matching as used by the repositories:
`.` is a wildcard, every other character matches itself
case-insensitively (the `'i'` flag). -/
def regexCharMatch (p t : Char) : Bool :=
  p = '.' || p.toLower = t.toLower

/-- Anchored match of a pattern (as a character list) against a target. -/
def regexCIMatchL : List Char → List Char → Bool
  | [], [] => true
  | p :: ps, t :: ts => regexCharMatch p t && regexCIMatchL ps ts
  | _, _ => false

/-- Models `new RegExp('^' + name + '$', 'i').test(target)` for patterns
built from letters, digits and `.` — the name strings exercised here.  The
pattern is the raw name, unescaped, exactly as the repositories build it:
`.` in a name therefore matches any character of the target. -/
def regexCIMatch (pattern target : String) : Bool :=
  regexCIMatchL pattern.toList target.toList

/-- Mongo `findOneAndUpdate` (returnDocument: after): update the first
element satisfying `p` by `f`, returning the updated element and the new
list. -/
def updateFirst (p : α → Bool) (f : α → α) : List α → Option α × List α
  | [] => (none, [])
  | x :: xs =>
    if p x then (some (f x), f x :: xs)
    else
      let r := updateFirst p f xs
      (r.1, x :: r.2)

/-- Stable insertion, descending by `ver`, of one element. -/
def insertDescBy (ver : α → Nat) (d : α) : List α → List α
  | [] => [d]
  | x :: xs => if ver x < ver d then d :: x :: xs else x :: insertDescBy ver d xs

/-- Stable sort, descending by `ver` — the storage engine's
`sort: \x7bversion: -1\x7d`. -/
def sortDescBy (ver : α → Nat) : List α → List α
  | [] => []
  | x :: xs => insertDescBy ver x (sortDescBy ver xs)

namespace SchemaRepository

/-- Source: `findOne(\x7b schemaId, version \x7d)`. -/
def findBySchemaIdAndVersion (schemaId : String) (version : Nat)
    (l : List SchemaDoc) : Option SchemaDoc :=
  l.find? (fun d => d.schemaId == schemaId && d.version == version)

/-- Source: `findOne(\x7b schemaId, active: true \x7d)`. -/
def findActiveBySchemaId (schemaId : String) (l : List SchemaDoc) : Option SchemaDoc :=
  l.find? (fun d => d.schemaId == schemaId && d.active)

/-- Source: `findMany(\x7b schemaId \x7d, \x7b sort: \x7b version: -1 \x7d \x7d)`. -/
def findAllVersionsBySchemaId (schemaId : String) (l : List SchemaDoc) : List SchemaDoc :=
  sortDescBy (fun d => d.version) (l.filter (fun d => d.schemaId == schemaId))

/-- Source: `findMany` with the same filter and sort, `limit: 1`,
then element 0 if any. -/
def findLatestBySchemaId (schemaId : String) (l : List SchemaDoc) : Option SchemaDoc :=
  (findAllVersionsBySchemaId schemaId l).head?

/-- Source: `findOne(\x7b name: \x7b $regex: new RegExp('^name$', 'i') \x7d, type \x7d)` —
the name is interpolated into the regex unescaped. -/
def findByNameAndType (name type : String) (l : List SchemaDoc) : Option SchemaDoc :=
  l.find? (fun d => regexCIMatch name d.name && d.type == type)

/-- Source: `updateMany(\x7b schemaId \x7d, \x7b $set: \x7b active: false, updatedAt \x7d \x7d)`. -/
def setAllInactiveBySchemaId (schemaId : String) (l : List SchemaDoc) : List SchemaDoc :=
  l.map (fun d => if d.schemaId == schemaId then { d with active := false } else d)

/-- Source: first `setAllInactiveBySchemaId`, then
`findOneAndUpdate(\x7b schemaId, version \x7d, \x7b $set: \x7b active: true \x7d \x7d)`. -/
def setVersionActive (schemaId : String) (version : Nat)
    (l : List SchemaDoc) : Option SchemaDoc × List SchemaDoc :=
  let l1 := setAllInactiveBySchemaId schemaId l
  updateFirst (fun d => d.schemaId == schemaId && d.version == version)
    (fun d => { d with active := true }) l1

/-- Source: latest version + 1, or 1 when the group has no versions. -/
def getNextVersion (schemaId : String) (l : List SchemaDoc) : Nat :=
  match findLatestBySchemaId schemaId l with
  | some latest => latest.version + 1
  | none => 1

/-- Source: `deleteMany(\x7b schemaId \x7d)`, returning the deleted count. -/
def deleteAllVersionsBySchemaId (schemaId : String)
    (l : List SchemaDoc) : Nat × List SchemaDoc :=
  ((l.filter (fun d => d.schemaId == schemaId)).length,
   l.filter (fun d => !(d.schemaId == schemaId)))

end SchemaRepository

namespace ConfigurationRepository

/-- Source: `findMany(\x7b schemaId \x7d)`. -/
def findBySchemaId (schemaId : String) (l : List ConfigDoc) : List ConfigDoc :=
  l.filter (fun c => c.schemaId == schemaId)

/-- Source: regex name match with the same schema id, preferring the
active version, otherwise any version. -/
def findByNameAndSchemaId (name schemaId : String) (l : List ConfigDoc) : Option ConfigDoc :=
  match l.find? (fun c => regexCIMatch name c.name && c.schemaId == schemaId && c.active) with
  | some c => some c
  | none => l.find? (fun c => regexCIMatch name c.name && c.schemaId == schemaId)

/-- Source: `findOne(\x7b configId, version \x7d)`. -/
def findByConfigIdAndVersion (configId : String) (version : Nat)
    (l : List ConfigDoc) : Option ConfigDoc :=
  l.find? (fun c => c.configId == configId && c.version == version)

/-- Source: `findOne(\x7b configId, active: true \x7d)`. -/
def findActiveByConfigId (configId : String) (l : List ConfigDoc) : Option ConfigDoc :=
  l.find? (fun c => c.configId == configId && c.active)

/-- Source: `findMany(\x7b configId \x7d, \x7b sort: \x7b version: -1 \x7d \x7d)`. -/
def findAllVersionsByConfigId (configId : String) (l : List ConfigDoc) : List ConfigDoc :=
  sortDescBy (fun c => c.version) (l.filter (fun c => c.configId == configId))

/-- Source: the same query with `limit: 1`, element 0 if any. -/
def findLatestByConfigId (configId : String) (l : List ConfigDoc) : Option ConfigDoc :=
  (findAllVersionsByConfigId configId l).head?

/-- Source: `updateMany(\x7b configId \x7d, \x7b $set: \x7b active: false \x7d \x7d)`. -/
def setAllInactiveByConfigId (configId : String) (l : List ConfigDoc) : List ConfigDoc :=
  l.map (fun c => if c.configId == configId then { c with active := false } else c)

/-- Source: deactivate all versions, then `findOneAndUpdate` the requested
one to active. -/
def setVersionActive (configId : String) (version : Nat)
    (l : List ConfigDoc) : Option ConfigDoc × List ConfigDoc :=
  let l1 := setAllInactiveByConfigId configId l
  updateFirst (fun c => c.configId == configId && c.version == version)
    (fun c => { c with active := true }) l1

/-- Source: latest version + 1, or 1 when absent. -/
def getNextVersion (configId : String) (l : List ConfigDoc) : Nat :=
  match findLatestByConfigId configId l with
  | some latest => latest.version + 1
  | none => 1

end ConfigurationRepository

namespace NotificationService

/-- The raw channel publish of the external AMQP client, which may reject;
`chanFail` selects the outcome. -/
def rawChannelPublish (chanFail : Bool) : Except String Unit :=
  if chanFail then .error "channel publish failed" else .ok ()

/-- Source (`NotificationService.publish`): the channel publish is wrapped
in try/catch — a failure is logged and swallowed, never rethrown.  The
unavailable-service early return yields the same `ok`. -/
def publish (chanFail : Bool) : Except String Unit :=
  match rawChannelPublish chanFail with
  | .ok _ => .ok ()
  | .error _ => .ok ()

end NotificationService

/-- Await `NotificationService.publish` and then return `x` as the
operation's result: a rejected publish promise would propagate to the
caller as a failure of the operation. -/
def awaitPublish (chanFail : Bool) (x : A) (st : St) : Except String A × St :=
  match NotificationService.publish chanFail with
  | .error e => (.error e, st)
  | .ok _ => (.ok x, st)

/-- Input attributes for schema creation
(`Omit<Schema, id | schemaId | version | active | createdAt | updatedAt>`). -/
structure SchemaData where
  name : String
  type : String
  description : String
  schema : String
  deriving Repr, DecidableEq

/-- Partial update payload for `updateSchemaBySchemaId`
(`undefined` is `none`). -/
structure SchemaUpdates where
  name : Option String
  type : Option String
  description : Option String
  schema : Option String
  deriving Repr, DecidableEq

/-- Input attributes for configuration creation; `schemaId` carries the
referenced schema version's unique id. -/
structure ConfigData where
  schemaId : String
  type : String
  name : String
  data : String
  deriving Repr, DecidableEq

/-- Partial update payload for `updateConfigurationByConfigId`. -/
structure ConfigUpdates where
  name : Option String
  type : Option String
  schemaId : Option String
  data : Option String
  deriving Repr, DecidableEq

/-- JS `field !== undefined && field !== current`. -/
def optChanged (o : Option String) (current : String) : Bool :=
  match o with
  | some s => s != current
  | none => false

namespace SchemaService

/-- Source: `generateSchemaId` builds a fresh group id from the clock and
randomness; modelled from the fresh-id counter. -/
def generateSchemaId (n : Nat) : String := "schema_" ++ toString n

/-- Source: `SchemaService.validateData` — resolves the ACTIVE version of
the group `schemaId`, then runs the cached or freshly compiled validator.
The compiled-validator cache is updated on a miss. -/
def validateData (ajv : Ajv) (schemaId dat : String) (st : St) :
    Except String VResult × St :=
  match SchemaRepository.findActiveBySchemaId schemaId st.schemas with
  | none => (.error ("Active schema with schemaId " ++ schemaId ++ " not found"), st)
  | some schema =>
    match mapGet schema.id st.validators with
    | some doc =>
      if ajv.run doc dat then (.ok { valid := true, errors := [] }, st)
      else (.ok { valid := false, errors := ajv.errorsOf doc dat }, st)
    | none =>
      if ajv.compileOk schema.schema then
        let st1 := { st with validators := mapSet schema.id schema.schema st.validators }
        if ajv.run schema.schema dat then (.ok { valid := true, errors := [] }, st1)
        else (.ok { valid := false, errors := ajv.errorsOf schema.schema dat }, st1)
      else (.error "Failed to compile schema", st)

/-- Source: `SchemaService.validateDataByVersion` — same as `validateData`
but resolving a SPECIFIC version of the group. -/
def validateDataByVersion (ajv : Ajv) (schemaId : String) (version : Nat)
    (dat : String) (st : St) : Except String VResult × St :=
  match SchemaRepository.findBySchemaIdAndVersion schemaId version st.schemas with
  | none =>
    (.error ("Schema with schemaId " ++ schemaId ++ " version " ++ toString version ++ " not found"), st)
  | some schema =>
    match mapGet schema.id st.validators with
    | some doc =>
      if ajv.run doc dat then (.ok { valid := true, errors := [] }, st)
      else (.ok { valid := false, errors := ajv.errorsOf doc dat }, st)
    | none =>
      if ajv.compileOk schema.schema then
        let st1 := { st with validators := mapSet schema.id schema.schema st.validators }
        if ajv.run schema.schema dat then (.ok { valid := true, errors := [] }, st1)
        else (.ok { valid := false, errors := ajv.errorsOf schema.schema dat }, st1)
      else (.error "Failed to compile schema", st)

/-- Source: `SchemaService.createSchemaWithVersion` — meta-validate the
document, reject duplicate (name, type) group-wide, reject an existing
(schemaId, version) pair, deactivate siblings when the new version is to
be active, insert, best-effort compile into the cache, publish. -/
def createSchemaWithVersion (ajv : Ajv) (chanFail : Bool) (sd : SchemaData)
    (version : Nat) (active : Bool) (schemaIdOpt : Option String) (st : St) :
    Except String SchemaDoc × St :=
  if ajv.validateSchema sd.schema = false then
    (.error "Invalid JSON Schema", st)
  else
    match SchemaRepository.findByNameAndType sd.name sd.type st.schemas with
    | some _ =>
      (.error ("Schema with name " ++ sd.name ++ " and type " ++ sd.type ++ " already exists"), st)
    | none =>
      let finalSchemaId := match schemaIdOpt with
        | some g => g
        | none => generateSchemaId st.nextOid
      let n1 := match schemaIdOpt with
        | some _ => st.nextOid
        | none => st.nextOid + 1
      match SchemaRepository.findBySchemaIdAndVersion finalSchemaId version st.schemas with
      | some _ =>
        (.error ("Schema with schemaId " ++ finalSchemaId ++ " and version " ++
          toString version ++ " already exists"), { st with nextOid := n1 })
      | none =>
        let schemas1 :=
          if active then SchemaRepository.setAllInactiveBySchemaId finalSchemaId st.schemas
          else st.schemas
        let doc : SchemaDoc :=
          { id := freshOid n1, schemaId := finalSchemaId, version := version,
            active := active, type := sd.type, name := sd.name,
            description := sd.description, schema := sd.schema }
        let validators1 :=
          if ajv.compileOk sd.schema then mapSet doc.id sd.schema st.validators
          else st.validators
        let st1 : St :=
          { schemas := schemas1 ++ [doc], configs := st.configs,
            validators := validators1, nextOid := n1 + 1 }
        awaitPublish chanFail doc st1

/-- Source: `SchemaService.createSchema` — version 1, active. -/
def createSchema (ajv : Ajv) (chanFail : Bool) (sd : SchemaData) (st : St) :
    Except String SchemaDoc × St :=
  createSchemaWithVersion ajv chanFail sd 1 true none st

/-- Source: `SchemaService.getAllVersionsBySchemaId`. -/
def getAllVersionsBySchemaId (schemaId : String) (st : St) : List SchemaDoc :=
  SchemaRepository.findAllVersionsBySchemaId schemaId st.schemas

/-- Source: `SchemaService.updateSchemaBySchemaId` — rejects any `name` in
the update payload, resolves the active version, meta-validates the new
document, computes the next version number, deactivates all versions,
inserts the new active version, compiles (a compilation failure here is
rethrown AFTER the insert), publishes. -/
def updateSchemaBySchemaId (ajv : Ajv) (chanFail : Bool) (schemaId : String)
    (upd : SchemaUpdates) (st : St) : Except String SchemaDoc × St :=
  if upd.name.isSome then
    (.error "Schema name cannot be updated. Name is used for uniqueness checks.", st)
  else
    match SchemaRepository.findActiveBySchemaId schemaId st.schemas with
    | none => (.error ("Schema with schemaId " ++ schemaId ++ " not found"), st)
    | some existing =>
      let newSchema := upd.schema.getD existing.schema
      if ajv.validateSchema newSchema = false then
        (.error "Invalid JSON Schema", st)
      else
        let nextVersion := SchemaRepository.getNextVersion schemaId st.schemas
        let newDoc : SchemaDoc :=
          { id := freshOid st.nextOid, schemaId := schemaId, version := nextVersion,
            active := true, name := upd.name.getD existing.name,
            type := upd.type.getD existing.type,
            description := upd.description.getD existing.description,
            schema := newSchema }
        let schemas1 := SchemaRepository.setAllInactiveBySchemaId schemaId st.schemas
        let st1 : St :=
          { schemas := schemas1 ++ [newDoc], configs := st.configs,
            validators := st.validators, nextOid := st.nextOid + 1 }
        if ajv.compileOk newDoc.schema = false then
          (.error "Failed to compile schema", st1)
        else
          let st2 := { st1 with validators := mapSet newDoc.id newDoc.schema st1.validators }
          awaitPublish chanFail newDoc st2

/-- Source: `SchemaService.setActiveVersion` — delegates to the
repository, then best-effort compiles the newly active version into the
cache.  Returns `none` (mapped to 404 by the routes) when the version does
not exist; no notification is published here. -/
def setActiveVersion (ajv : Ajv) (schemaId : String) (version : Nat) (st : St) :
    Option SchemaDoc × St :=
  let r := SchemaRepository.setVersionActive schemaId version st.schemas
  match r.1 with
  | none => (none, { st with schemas := r.2 })
  | some schema =>
    let validators1 :=
      if ajv.compileOk schema.schema then mapSet schema.id schema.schema st.validators
      else st.validators
    (some schema, { st with schemas := r.2, validators := validators1 })

/-- Source: `SchemaService.deleteSchema` — delete one document by unique
id, dropping its cached validator when the delete succeeded. -/
def deleteSchema (id : String) (st : St) : Bool × St :=
  let schemaFound := (st.schemas.find? (fun d => d.id == id)).isSome
  let deleted := st.schemas.any (fun d => d.id == id)
  let schemas1 := st.schemas.eraseP (fun d => d.id == id)
  let validators1 :=
    if deleted && schemaFound then mapDelete id st.validators else st.validators
  (deleted, { st with schemas := schemas1, validators := validators1 })

end SchemaService

namespace ConfigurationService

/-- Source: `generateConfigId`, modelled from the fresh-id counter. -/
def generateConfigId (n : Nat) : String := "config_" ++ toString n

/-- Source: `ConfigurationService.getConfigurationsBySchemaId` — documents
whose stored `schemaId` FIELD equals the argument, restricted to active
ones.  (The stored field holds a schema version's unique id.) -/
def getConfigurationsBySchemaId (schemaId : String) (st : St) : List ConfigDoc :=
  (ConfigurationRepository.findBySchemaId schemaId st.configs).filter
    (fun c => c.active == true)

/-- Source: `ConfigurationService.getConfigurationsBySchemaSchemaId` —
resolves every version of the schema group, then keeps the active
configurations whose stored reference is one of those versions' ids. -/
def getConfigurationsBySchemaSchemaId (schemaSchemaId : String) (st : St) : List ConfigDoc :=
  let schemas := SchemaService.getAllVersionsBySchemaId schemaSchemaId st
  let schemaIds := schemas.map (fun s => s.id)
  st.configs.filter (fun c => schemaIds.contains c.schemaId && c.active == true)

/-- Source: `ConfigurationService.createConfiguration` — resolves the
schema by its unique id, rejects duplicate names scoped to that id,
requires type agreement, validates the data against that SPECIFIC schema
version, then inserts version 1 active and publishes. -/
def createConfiguration (ajv : Ajv) (chanFail : Bool) (cd : ConfigData) (st : St) :
    Except String ConfigDoc × St :=
  let schemaId := cd.schemaId
  match st.schemas.find? (fun d => d.id == schemaId) with
  | none => (.error ("Schema with id " ++ schemaId ++ " not found"), st)
  | some schema =>
    match ConfigurationRepository.findByNameAndSchemaId cd.name schemaId st.configs with
    | some _ =>
      (.error ("Configuration with name " ++ cd.name ++ " for schema " ++
        schema.name ++ " already exists"), st)
    | none =>
      if cd.type != schema.type then
        (.error ("Configuration type " ++ cd.type ++ " does not match schema type " ++
          schema.type), st)
      else
        match SchemaService.validateDataByVersion ajv schema.schemaId schema.version cd.data st with
        | (.error e, st1) => (.error e, st1)
        | (.ok v, st1) =>
          if v.valid = false then
            (.error "Configuration data does not conform to schema", st1)
          else
            let configId := generateConfigId st1.nextOid
            let doc : ConfigDoc :=
              { id := freshOid (st1.nextOid + 1), configId := configId, version := 1,
                active := true, schemaId := cd.schemaId, type := cd.type,
                name := cd.name, data := cd.data }
            let st2 :=
              { st1 with configs := st1.configs ++ [doc], nextOid := st1.nextOid + 2 }
            awaitPublish chanFail doc st2

/-- The re-validation block of `updateConfigurationByConfigId`: when the
schema reference changed, validate the resulting data against the new
target version; otherwise, when data was provided, validate it against
the existing target version; otherwise skip validation. -/
def revalidate (ajv : Ajv) (schemaIdChanged dataProvided : Bool)
    (validationSchema : SchemaDoc) (newData : String) (st : St) :
    Except String Unit × St :=
  if schemaIdChanged then
    match SchemaService.validateDataByVersion ajv validationSchema.schemaId
        validationSchema.version newData st with
    | (.error e, s2) => (.error e, s2)
    | (.ok v, s2) =>
      (if v.valid then .ok ()
       else .error "Configuration data does not conform to new schema", s2)
  else if dataProvided then
    match SchemaService.validateDataByVersion ajv validationSchema.schemaId
        validationSchema.version newData st with
    | (.error e, s2) => (.error e, s2)
    | (.ok v, s2) =>
      (if v.valid then .ok ()
       else .error "Configuration data does not conform to schema", s2)
  else (.ok (), st)

/-- Source: `ConfigurationService.updateConfigurationByConfigId` — loads
the active version, rejects name/type changes, resolves the validation
schema (following a changed `schemaId` reference, which must exist and
type-match), re-validates when data or reference changed, then creates
the next version active after deactivating the others, and publishes. -/
def updateConfigurationByConfigId (ajv : Ajv) (chanFail : Bool) (configId : String)
    (upd : ConfigUpdates) (st : St) : Except String ConfigDoc × St :=
  match ConfigurationRepository.findActiveByConfigId configId st.configs with
  | none => (.error ("Configuration with configId " ++ configId ++ " not found"), st)
  | some existing =>
    if optChanged upd.name existing.name then
      (.error "Configuration name cannot be updated. Name is used for uniqueness checks.", st)
    else if optChanged upd.type existing.type then
      (.error "Configuration type cannot be updated. Type is used for uniqueness checks.", st)
    else
      match st.schemas.find? (fun d => d.id == existing.schemaId) with
      | none => (.error ("Schema with id " ++ existing.schemaId ++ " not found"), st)
      | some validationSchema0 =>
        let vsRes : Except String SchemaDoc :=
          if optChanged upd.schemaId existing.schemaId then
            match st.schemas.find? (fun d => d.id == upd.schemaId.getD existing.schemaId) with
            | none => .error ("Schema with id " ++ upd.schemaId.getD existing.schemaId ++ " not found")
            | some newSchema =>
              if existing.type != newSchema.type then
                .error ("Configuration type " ++ existing.type ++
                  " does not match new schema type " ++ newSchema.type)
              else .ok newSchema
          else .ok validationSchema0
        match vsRes with
        | .error e => (.error e, st)
        | .ok validationSchema =>
          let newData := upd.data.getD existing.data
          let newSchemaId := upd.schemaId.getD existing.schemaId
          match revalidate ajv (optChanged upd.schemaId existing.schemaId)
              upd.data.isSome validationSchema newData st with
          | (.error e, s2) => (.error e, s2)
          | (.ok _, s2) =>
            let nextVersion := ConfigurationRepository.getNextVersion configId s2.configs
            let newDoc : ConfigDoc :=
              { id := freshOid s2.nextOid, configId := configId, version := nextVersion,
                active := true, schemaId := newSchemaId, type := existing.type,
                name := existing.name, data := newData }
            let configs1 := ConfigurationRepository.setAllInactiveByConfigId configId s2.configs
            let s3 := { s2 with configs := configs1 ++ [newDoc], nextOid := s2.nextOid + 1 }
            awaitPublish chanFail newDoc s3

/-- Source: `ConfigurationService.setActiveVersion` — delegates to the
repository and publishes a notification when a version was activated. -/
def setActiveVersion (chanFail : Bool) (configId : String) (version : Nat) (st : St) :
    Except String (Option ConfigDoc) × St :=
  let r := ConfigurationRepository.setVersionActive configId version st.configs
  let st1 := { st with configs := r.2 }
  match r.1 with
  | some c => awaitPublish chanFail (some c) st1
  | none => (.ok none, st1)

/-- Source: `ConfigurationService.deleteConfiguration` — delete one
document by unique id, publishing on success. -/
def deleteConfiguration (chanFail : Bool) (id : String) (st : St) :
    Except String Bool × St :=
  let deleted := st.configs.any (fun c => c.id == id)
  let st1 := { st with configs := st.configs.eraseP (fun c => c.id == id) }
  if deleted then awaitPublish chanFail true st1
  else (.ok false, st1)

/-- Source: `ConfigurationService.validateConfiguration` — loads the
configuration by unique id and passes its STORED `schemaId` field (a
schema version's unique id) to `SchemaService.validateData`, which treats
that argument as a GROUP id and resolves the group's active version. -/
def validateConfiguration (ajv : Ajv) (id : String) (st : St) :
    Except String VResult × St :=
  match st.configs.find? (fun c => c.id == id) with
  | none => (.error ("Configuration with id " ++ id ++ " not found"), st)
  | some configuration =>
    SchemaService.validateData ajv configuration.schemaId configuration.data st

end ConfigurationService

/-- Source: `SchemaService.deleteAllVersionsBySchemaId` — guarded by
`ConfigurationService.getConfigurationsBySchemaId` applied to the GROUP
id, then deletes every version of the group, clears their cached
validators, and publishes. -/
def SchemaService.deleteAllVersionsBySchemaId (chanFail : Bool) (schemaId : String)
    (st : St) : Except String Nat × St :=
  let configurations := ConfigurationService.getConfigurationsBySchemaId schemaId st
  if configurations.length > 0 then
    (.error ("Cannot delete schema: " ++ toString configurations.length ++
      " configuration(s) are using this schema"), st)
  else
    let versions := SchemaRepository.findAllVersionsBySchemaId schemaId st.schemas
    let r := SchemaRepository.deleteAllVersionsBySchemaId schemaId st.schemas
    let validators1 := versions.foldl (fun m v => mapDelete v.id m) st.validators
    let st1 := { st with schemas := r.2, validators := validators1 }
    awaitPublish chanFail r.1 st1

/-- A raw configuration document as stored in Mongo: the legacy fields
`configId` / `version` / `active` may be absent, and `idField` is a
literal `id` attribute in the document, which stored documents do not
have (the repository strips `_id` and never stores `id`). -/
structure ConfigRawDoc where
  mongoId : String
  idField : Option String
  configId : Option String
  version : Option Nat
  active : Option Bool
  schemaId : String
  type : String
  name : String
  data : String
  deriving Repr, DecidableEq

/-- Runtime shape produced by `ConfigurationRepository.toEntity`: despite
the TypeScript `Configuration` type, `configId` can be `undefined` at
runtime, so it is an `Option` here. -/
structure ConfigEntity where
  id : String
  configId : Option String
  version : Nat
  active : Bool
  schemaId : String
  type : String
  name : String
  data : String
  deriving Repr, DecidableEq

/-- JS `a || b` on string-or-undefined values: an empty string is falsy. -/
def jsOrString : Option String → Option String → Option String
  | some s, b => if s = "" then b else some s
  | none, b => b

/-- Source: `ConfigurationRepository.toEntity` — strips `_id` into `id`
and applies the backward-compatibility defaults: `configId` falls back to
`rest.id` (the spread of the document WITHOUT `_id`, so normally
undefined), `version` to 1, `active` to true. -/
def ConfigurationRepository.toEntity (d : ConfigRawDoc) : ConfigEntity :=
  { id := d.mongoId
    configId := jsOrString d.configId d.idField
    version := d.version.getD 1
    active := d.active.getD true
    schemaId := d.schemaId
    type := d.type
    name := d.name
    data := d.data }

/-! Concrete instances used to evaluate the model, and counting helpers
for the lifecycle invariants. -/

/-- An AJV instance for which every document is a well-formed schema,
compiles, and accepts every payload. -/
def ajvAll : Ajv :=
  { validateSchema := fun _ => true, compileOk := fun _ => true,
    run := fun _ _ => true, errorsOf := fun _ _ => [] }

/-- Number of active versions of schema group `g` in a collection. -/
def schemaActiveCount (g : String) (l : List SchemaDoc) : Nat :=
  l.countP (fun d => d.schemaId == g && d.active)

/-- Number of active versions of configuration group `cid` in a
collection. -/
def configActiveCount (cid : String) (l : List ConfigDoc) : Nat :=
  l.countP (fun c => c.configId == cid && c.active)

/-- Maximum of a list of naturals (0 when empty). -/
def maxNat (l : List Nat) : Nat := l.foldr max 0

/-- Highest existing version number of schema group `g`. -/
def schemaMaxVersion (g : String) (l : List SchemaDoc) : Nat :=
  maxNat ((l.filter (fun d => d.schemaId == g)).map (fun d => d.version))

/-- Highest existing version number of configuration group `cid`. -/
def configMaxVersion (cid : String) (l : List ConfigDoc) : Nat :=
  maxNat ((l.filter (fun c => c.configId == cid)).map (fun c => c.version))

/-! Generic lemmas about the list-level building blocks. -/

theorem updateFirst_of_all_false {p : α → Bool} {f : α → α} :
    ∀ {l : List α}, (∀ x ∈ l, p x = false) → updateFirst p f l = (none, l) := by
  intro l
  induction l with
  | nil => intro _; rfl
  | cons x xs ih =>
    intro h
    have hx : p x = false := h x (List.mem_cons_self x xs)
    have hrest := ih (fun y hy => h y (List.mem_cons_of_mem x hy))
    simp [updateFirst, hx, hrest]

theorem updateFirst_mem {p : α → Bool} {f : α → α} :
    ∀ {l : List α} {e : α}, e ∈ (updateFirst p f l).2 →
      e ∈ l ∨ ∃ x ∈ l, p x = true ∧ e = f x := by
  intro l
  induction l with
  | nil => intro e he; simp [updateFirst] at he
  | cons x xs ih =>
    intro e he
    by_cases hx : p x = true
    · simp [updateFirst, hx] at he
      rcases he with he | he
      · exact Or.inr ⟨x, List.mem_cons_self x xs, hx, he⟩
      · exact Or.inl (List.mem_cons_of_mem x he)
    · simp [updateFirst, hx] at he
      rcases he with he | he
      · exact Or.inl (by simp [he])
      · rcases ih he with h1 | ⟨y, hy, hpy, hey⟩
        · exact Or.inl (List.mem_cons_of_mem x h1)
        · exact Or.inr ⟨y, List.mem_cons_of_mem x hy, hpy, hey⟩

theorem updateFirst_found {p : α → Bool} {f : α → α} :
    ∀ {l : List α} {x : α}, x ∈ l → p x = true →
      ∃ d, (updateFirst p f l).1 = some d ∧ d ∈ (updateFirst p f l).2 ∧
        ∃ y ∈ l, p y = true ∧ d = f y := by
  intro l
  induction l with
  | nil => intro x hx; simp at hx
  | cons a xs ih =>
    intro x hx hpx
    by_cases ha : p a = true
    · exact ⟨f a, by simp [updateFirst, ha],
        by simp [updateFirst, ha], a, List.mem_cons_self a xs, ha, rfl⟩
    · have hxs : x ∈ xs := by
        rcases List.mem_cons.mp hx with h | h
        · exact absurd (h ▸ hpx) (by simp [ha])
        · exact h
      rcases ih hxs hpx with ⟨d, h1, h2, y, hy, hpy, hd⟩
      exact ⟨d, by simp [updateFirst, ha, h1],
        by simp [updateFirst, ha]; exact Or.inr h2,
        y, List.mem_cons_of_mem a hy, hpy, hd⟩

theorem countP_updateFirst_le (p : α → Bool) (f : α → α) (q : α → Bool) :
    ∀ l : List α, ((updateFirst p f l).2).countP q ≤ l.countP q + 1 := by
  intro l
  induction l with
  | nil => simp [updateFirst]
  | cons x xs ih =>
    cases hx : p x with
    | true =>
      simp only [updateFirst, hx, if_true, List.countP_cons]
      have h1 : (if q (f x) = true then 1 else 0) ≤ 1 := by split <;> omega
      omega
    | false =>
      simp only [updateFirst, hx, Bool.false_eq_true, if_false, List.countP_cons]
      omega

theorem countP_updateFirst_untouched {p : α → Bool} {f : α → α} {q : α → Bool}
    (hq : ∀ x, p x = true → (q x = false ∧ q (f x) = false)) :
    ∀ l : List α, ((updateFirst p f l).2).countP q = l.countP q := by
  intro l
  induction l with
  | nil => simp [updateFirst]
  | cons x xs ih =>
    cases hx : p x with
    | true =>
      rcases hq x hx with ⟨h1, h2⟩
      simp only [updateFirst, hx, if_true, List.countP_cons, h1, h2]
    | false =>
      simp only [updateFirst, hx, Bool.false_eq_true, if_false, List.countP_cons, ih]

theorem mem_insertDescBy (ver : α → Nat) (d : α) :
    ∀ (l : List α) (x : α), x ∈ insertDescBy ver d l ↔ x = d ∨ x ∈ l := by
  intro l
  induction l with
  | nil => intro x; simp [insertDescBy]
  | cons a xs ih =>
    intro x
    by_cases h : ver a < ver d
    · simp [insertDescBy, h]
    · simp [insertDescBy, h, ih]
      tauto

theorem mem_sortDescBy (ver : α → Nat) :
    ∀ (l : List α) (x : α), x ∈ sortDescBy ver l ↔ x ∈ l := by
  intro l
  induction l with
  | nil => intro x; simp [sortDescBy]
  | cons a xs ih =>
    intro x
    simp [sortDescBy, mem_insertDescBy, ih]

theorem pairwise_insertDescBy (ver : α → Nat) (d : α) :
    ∀ {l : List α}, l.Pairwise (fun a b => ver b ≤ ver a) →
      (insertDescBy ver d l).Pairwise (fun a b => ver b ≤ ver a) := by
  intro l
  induction l with
  | nil => intro _; simp [insertDescBy]
  | cons a xs ih =>
    intro h
    rcases List.pairwise_cons.mp h with ⟨ha, hxs⟩
    by_cases hc : ver a < ver d
    · rw [show insertDescBy ver d (a :: xs) = d :: a :: xs by
        simp [insertDescBy, hc]]
      refine List.pairwise_cons.mpr ⟨?_, h⟩
      intro y hy
      rcases List.mem_cons.mp hy with rfl | hy2
      · omega
      · have := ha y hy2
        omega
    · rw [show insertDescBy ver d (a :: xs) = a :: insertDescBy ver d xs by
        simp [insertDescBy, hc]]
      refine List.pairwise_cons.mpr ⟨?_, ih hxs⟩
      intro y hy
      rcases (mem_insertDescBy ver d xs y).mp hy with rfl | hy2
      · omega
      · exact ha y hy2

theorem pairwise_sortDescBy (ver : α → Nat) :
    ∀ l : List α, (sortDescBy ver l).Pairwise (fun a b => ver b ≤ ver a) := by
  intro l
  induction l with
  | nil => simp [sortDescBy]
  | cons a xs ih => exact pairwise_insertDescBy ver a ih

theorem sortDescBy_eq_nil_iff (ver : α → Nat) (l : List α) :
    sortDescBy ver l = [] ↔ l = [] := by
  constructor
  · intro h
    cases l with
    | nil => rfl
    | cons a xs =>
      exfalso
      have : a ∈ sortDescBy ver (a :: xs) :=
        (mem_sortDescBy ver (a :: xs) a).mpr (List.mem_cons_self a xs)
      rw [h] at this
      simp at this
  · intro h; subst h; rfl

theorem le_maxNat : ∀ {l : List Nat} {v : Nat}, v ∈ l → v ≤ maxNat l := by
  intro l
  induction l with
  | nil => intro v hv; simp at hv
  | cons a xs ih =>
    intro v hv
    rcases List.mem_cons.mp hv with rfl | hv2
    · simp only [maxNat, List.foldr_cons]
      omega
    · have h1 := ih hv2
      simp only [maxNat, List.foldr_cons] at h1 ⊢
      omega

theorem maxNat_mem : ∀ {l : List Nat}, l ≠ [] → maxNat l ∈ l := by
  intro l
  induction l with
  | nil => intro h; simp at h
  | cons a xs ih =>
    intro _
    cases xs with
    | nil => simp [maxNat]
    | cons b ys =>
      rcases Nat.le_total (maxNat (b :: ys)) a with h | h
      · have : maxNat (a :: b :: ys) = a := by
          simp only [maxNat, List.foldr_cons] at h ⊢
          omega
        simp [this]
      · have hmem := ih (by simp)
        have : maxNat (a :: b :: ys) = maxNat (b :: ys) := by
          simp only [maxNat, List.foldr_cons] at h ⊢
          omega
        rw [this]
        exact List.mem_cons_of_mem a hmem

/-- The head of the descending sort of a nonempty list attains the
maximum of the projections. -/
theorem sortDescBy_head_max (ver : α → Nat) (l : List α) (hne : l ≠ []) :
    ∃ h t, sortDescBy ver l = h :: t ∧ h ∈ l ∧ ver h = maxNat (l.map ver) := by
  cases hs : sortDescBy ver l with
  | nil => exact absurd ((sortDescBy_eq_nil_iff ver l).mp hs) hne
  | cons h t =>
    refine ⟨h, t, rfl, ?_, ?_⟩
    · exact (mem_sortDescBy ver l h).mp (by simp [hs])
    · have hhl : h ∈ l := (mem_sortDescBy ver l h).mp (by simp [hs])
      have h1 : ver h ≤ maxNat (l.map ver) :=
        le_maxNat (List.mem_map.mpr ⟨h, hhl, rfl⟩)
      have hmapne : l.map ver ≠ [] := by
        cases l with
        | nil => exact absurd rfl hne
        | cons a xs => simp
      have h2 := maxNat_mem hmapne
      rcases List.mem_map.mp h2 with ⟨d, hd, hdv⟩
      have hd2 : d ∈ sortDescBy ver l := (mem_sortDescBy ver l d).mpr hd
      rw [hs] at hd2
      have hpw := pairwise_sortDescBy ver l
      rw [hs] at hpw
      rcases List.mem_cons.mp hd2 with rfl | hd3
      · omega
      · have := (List.pairwise_cons.mp hpw).1 d hd3
        omega

/-! Lemmas about the repository operations. -/

theorem publish_eq_ok (b : Bool) : NotificationService.publish b = .ok () := by
  cases b <;> rfl

theorem awaitPublish_eq (b : Bool) (x : A) (st : St) :
    awaitPublish b x st = (.ok x, st) := by
  cases b <;> rfl

theorem schemaActiveCount_setAllInactive_self (g : String) (l : List SchemaDoc) :
    schemaActiveCount g (SchemaRepository.setAllInactiveBySchemaId g l) = 0 := by
  induction l with
  | nil => rfl
  | cons d xs ih =>
    simp only [SchemaRepository.setAllInactiveBySchemaId, List.map_cons] at ih ⊢
    by_cases hd : d.schemaId = g
    · simp [schemaActiveCount, List.countP_cons, hd] at ih ⊢
      exact ih
    · simp [schemaActiveCount, List.countP_cons, hd] at ih ⊢
      exact ih

theorem schemaActiveCount_setAllInactive_other {h g : String} (hne : h ≠ g)
    (l : List SchemaDoc) :
    schemaActiveCount h (SchemaRepository.setAllInactiveBySchemaId g l) =
      schemaActiveCount h l := by
  induction l with
  | nil => rfl
  | cons d xs ih =>
    simp only [SchemaRepository.setAllInactiveBySchemaId, List.map_cons] at ih ⊢
    by_cases hd : d.schemaId = g
    · have hgh : g ≠ h := fun e => hne e.symm
      simp [schemaActiveCount, List.countP_cons, hd, hgh] at ih ⊢
      exact ih
    · simp [schemaActiveCount, List.countP_cons, hd] at ih ⊢
      exact ih

theorem configActiveCount_setAllInactive_self (cid : String) (l : List ConfigDoc) :
    configActiveCount cid (ConfigurationRepository.setAllInactiveByConfigId cid l) = 0 := by
  induction l with
  | nil => rfl
  | cons d xs ih =>
    simp only [ConfigurationRepository.setAllInactiveByConfigId, List.map_cons] at ih ⊢
    by_cases hd : d.configId = cid
    · simp [configActiveCount, List.countP_cons, hd] at ih ⊢
      exact ih
    · simp [configActiveCount, List.countP_cons, hd] at ih ⊢
      exact ih

theorem configActiveCount_setAllInactive_other {h cid : String} (hne : h ≠ cid)
    (l : List ConfigDoc) :
    configActiveCount h (ConfigurationRepository.setAllInactiveByConfigId cid l) =
      configActiveCount h l := by
  induction l with
  | nil => rfl
  | cons d xs ih =>
    simp only [ConfigurationRepository.setAllInactiveByConfigId, List.map_cons] at ih ⊢
    by_cases hd : d.configId = cid
    · have hgh : cid ≠ h := fun e => hne e.symm
      simp [configActiveCount, List.countP_cons, hd, hgh] at ih ⊢
      exact ih
    · simp [configActiveCount, List.countP_cons, hd] at ih ⊢
      exact ih

theorem schemaActiveCount_append (g : String) (l1 l2 : List SchemaDoc) :
    schemaActiveCount g (l1 ++ l2) = schemaActiveCount g l1 + schemaActiveCount g l2 :=
  List.countP_append _ l1 l2

theorem configActiveCount_append (cid : String) (l1 l2 : List ConfigDoc) :
    configActiveCount cid (l1 ++ l2) = configActiveCount cid l1 + configActiveCount cid l2 :=
  List.countP_append _ l1 l2

theorem schemaActiveCount_sublist {l1 l2 : List SchemaDoc} (h : l1.Sublist l2)
    (g : String) : schemaActiveCount g l1 ≤ schemaActiveCount g l2 :=
  List.Sublist.countP_le _ h

theorem configActiveCount_sublist {l1 l2 : List ConfigDoc} (h : l1.Sublist l2)
    (cid : String) : configActiveCount cid l1 ≤ configActiveCount cid l2 :=
  List.Sublist.countP_le _ h

/-- Anything in a group that was just fully deactivated is inactive. -/
theorem setAllInactive_mem_inactive {g : String} {l : List SchemaDoc} {e : SchemaDoc}
    (he : e ∈ SchemaRepository.setAllInactiveBySchemaId g l) (hg : e.schemaId = g) :
    e.active = false := by
  rcases List.mem_map.mp he with ⟨x, _, hx⟩
  subst hx
  by_cases hc : x.schemaId = g
  · simp [hc]
  · simp only [beq_iff_eq, hc, if_false] at hg

/-- Deactivation does not change which (groupId, version) pairs exist. -/
theorem setAllInactive_fields {g : String} {l : List SchemaDoc} {e : SchemaDoc}
    (he : e ∈ SchemaRepository.setAllInactiveBySchemaId g l) :
    ∃ x ∈ l, x.schemaId = e.schemaId ∧ x.version = e.version := by
  rcases List.mem_map.mp he with ⟨x, hxl, hx⟩
  refine ⟨x, hxl, ?_⟩
  subst hx
  by_cases hc : x.schemaId = g <;> simp [hc]

/-- The deactivated image of a group member keeps its key fields. -/
theorem setAllInactive_image {g : String} {l : List SchemaDoc} {x : SchemaDoc}
    (hx : x ∈ l) :
    ∃ e ∈ SchemaRepository.setAllInactiveBySchemaId g l,
      e.schemaId = x.schemaId ∧ e.version = x.version := by
  refine ⟨(fun d => if d.schemaId == g then { d with active := false } else d) x,
    List.mem_map.mpr ⟨x, hx, rfl⟩, ?_⟩
  by_cases hc : x.schemaId = g <;> simp [hc]

/-- `getNextVersion` is max-plus-one as soon as the group is nonempty. -/
theorem getNextVersion_eq_max_succ {g : String} {l : List SchemaDoc} {d0 : SchemaDoc}
    (h0 : d0 ∈ l) (hg : d0.schemaId = g) :
    SchemaRepository.getNextVersion g l = schemaMaxVersion g l + 1 := by
  have hmem : d0 ∈ l.filter (fun d => d.schemaId == g) :=
    List.mem_filter.mpr ⟨h0, by simp [hg]⟩
  have hne : l.filter (fun d => d.schemaId == g) ≠ [] := by
    intro hnil
    rw [hnil] at hmem
    simp at hmem
  rcases sortDescBy_head_max (fun d => d.version) _ hne with ⟨h, t, hsort, _, hmax⟩
  simp only [SchemaRepository.getNextVersion, SchemaRepository.findLatestBySchemaId,
    SchemaRepository.findAllVersionsBySchemaId, hsort, List.head?_cons]
  simp only [schemaMaxVersion]
  rw [← hmax]

theorem cfgNextVersion_eq_max_succ {cid : String} {l : List ConfigDoc} {c0 : ConfigDoc}
    (h0 : c0 ∈ l) (hc : c0.configId = cid) :
    ConfigurationRepository.getNextVersion cid l = configMaxVersion cid l + 1 := by
  have hmem : c0 ∈ l.filter (fun c => c.configId == cid) :=
    List.mem_filter.mpr ⟨h0, by simp [hc]⟩
  have hne : l.filter (fun c => c.configId == cid) ≠ [] := by
    intro hnil
    rw [hnil] at hmem
    simp at hmem
  rcases sortDescBy_head_max (fun c => c.version) _ hne with ⟨h, t, hsort, _, hmax⟩
  simp only [ConfigurationRepository.getNextVersion, ConfigurationRepository.findLatestByConfigId,
    ConfigurationRepository.findAllVersionsByConfigId, hsort, List.head?_cons]
  simp only [configMaxVersion]
  rw [← hmax]

/-- `validateDataByVersion` touches only the validator cache. -/
theorem validateDataByVersion_state (ajv : Ajv) (g : String) (v : Nat) (dat : String)
    (st : St) :
    (SchemaService.validateDataByVersion ajv g v dat st).2.schemas = st.schemas ∧
    (SchemaService.validateDataByVersion ajv g v dat st).2.configs = st.configs ∧
    (SchemaService.validateDataByVersion ajv g v dat st).2.nextOid = st.nextOid := by
  unfold SchemaService.validateDataByVersion
  split
  · exact ⟨rfl, rfl, rfl⟩
  · split
    · split <;> exact ⟨rfl, rfl, rfl⟩
    · split
      · split <;> exact ⟨rfl, rfl, rfl⟩
      · exact ⟨rfl, rfl, rfl⟩

/-- The lifecycle invariant: every schema group and every configuration
group has at most one active version. -/
def LifecycleInv (st : St) : Prop :=
  (∀ g, schemaActiveCount g st.schemas ≤ 1) ∧
  (∀ cid, configActiveCount cid st.configs ≤ 1)

theorem schemaActiveCount_singleton (g : String) (d : SchemaDoc) :
    schemaActiveCount g [d] = if d.schemaId == g && d.active then 1 else 0 := by
  simp [schemaActiveCount, List.countP_cons]

theorem configActiveCount_singleton (cid : String) (c : ConfigDoc) :
    configActiveCount cid [c] = if c.configId == cid && c.active then 1 else 0 := by
  simp [configActiveCount, List.countP_cons]

/-- Deactivate-then-append-one-active leaves at most one active version in
every schema group. -/
theorem schemaActiveCount_deactivate_append (fid : String) (l : List SchemaDoc)
    (d : SchemaDoc) (hd : d.schemaId = fid)
    (hinv : ∀ g, schemaActiveCount g l ≤ 1) (g : String) :
    schemaActiveCount g (SchemaRepository.setAllInactiveBySchemaId fid l ++ [d]) ≤ 1 := by
  rw [schemaActiveCount_append, schemaActiveCount_singleton]
  by_cases hg : g = fid
  · subst hg
    rw [schemaActiveCount_setAllInactive_self]
    split <;> omega
  · rw [schemaActiveCount_setAllInactive_other hg]
    have : (d.schemaId == g) = false := by
      simp [hd]
      exact fun e => hg e.symm
    simp only [this, Bool.false_and, Bool.false_eq_true, if_false]
    have := hinv g
    omega

/-- The configuration analogue of the previous lemma. -/
theorem configActiveCount_deactivate_append (cid : String) (l : List ConfigDoc)
    (c : ConfigDoc) (hc : c.configId = cid)
    (hinv : ∀ x, configActiveCount x l ≤ 1) (x : String) :
    configActiveCount x (ConfigurationRepository.setAllInactiveByConfigId cid l ++ [c]) ≤ 1 := by
  rw [configActiveCount_append, configActiveCount_singleton]
  by_cases hg : x = cid
  · subst hg
    rw [configActiveCount_setAllInactive_self]
    split <;> omega
  · rw [configActiveCount_setAllInactive_other hg]
    have : (c.configId == x) = false := by
      simp [hc]
      exact fun e => hg e.symm
    simp only [this, Bool.false_and, Bool.false_eq_true, if_false]
    have := hinv x
    omega

theorem createSchemaWithVersion_inv (ajv : Ajv) (cf : Bool) (sd : SchemaData)
    (v : Nat) (a : Bool) (sid : Option String) (st : St) (h : LifecycleInv st) :
    LifecycleInv (SchemaService.createSchemaWithVersion ajv cf sd v a sid st).2 := by
  obtain ⟨hs, hc⟩ := h
  simp only [SchemaService.createSchemaWithVersion]
  split
  · exact ⟨hs, hc⟩
  · split
    · exact ⟨hs, hc⟩
    · split
      · exact ⟨hs, hc⟩
      · simp only [awaitPublish_eq]
        refine ⟨?_, hc⟩
        intro g
        split
        · apply schemaActiveCount_deactivate_append
          · rfl
          · exact hs
        · rw [schemaActiveCount_append, schemaActiveCount_singleton]
          have ha : a = false := by
            rename_i hna
            simp at hna
            exact hna
          simp only [ha, Bool.and_false, Bool.false_eq_true, if_false]
          have := hs g
          omega

theorem updateSchemaBySchemaId_inv (ajv : Ajv) (cf : Bool) (gid : String)
    (upd : SchemaUpdates) (st : St) (h : LifecycleInv st) :
    LifecycleInv (SchemaService.updateSchemaBySchemaId ajv cf gid upd st).2 := by
  obtain ⟨hs, hc⟩ := h
  simp only [SchemaService.updateSchemaBySchemaId]
  split
  · exact ⟨hs, hc⟩
  · split
    · exact ⟨hs, hc⟩
    · split
      · exact ⟨hs, hc⟩
      · split
        · refine ⟨?_, hc⟩
          intro g
          apply schemaActiveCount_deactivate_append
          · rfl
          · exact hs
        · simp only [awaitPublish_eq]
          refine ⟨?_, hc⟩
          intro g
          apply schemaActiveCount_deactivate_append
          · rfl
          · exact hs

theorem setActiveVersionSchema_inv (ajv : Ajv) (gid : String) (v : Nat) (st : St)
    (h : LifecycleInv st) :
    LifecycleInv (SchemaService.setActiveVersion ajv gid v st).2 := by
  obtain ⟨hs, hc⟩ := h
  have key : ∀ g, schemaActiveCount g (SchemaRepository.setVersionActive gid v st.schemas).2 ≤ 1 := by
    intro g
    simp only [SchemaRepository.setVersionActive]
    by_cases hg : g = gid
    · subst hg
      calc schemaActiveCount g (updateFirst _ _ (SchemaRepository.setAllInactiveBySchemaId g st.schemas)).2
          ≤ schemaActiveCount g (SchemaRepository.setAllInactiveBySchemaId g st.schemas) + 1 :=
            countP_updateFirst_le _ _ _ _
        _ ≤ 1 := by rw [schemaActiveCount_setAllInactive_self]
    · have huntouched : ∀ x : SchemaDoc, (x.schemaId == gid && x.version == v) = true →
          ((x.schemaId == g && x.active) = false ∧
           (({ x with active := true } : SchemaDoc).schemaId == g && ({ x with active := true } : SchemaDoc).active) = false) := by
        intro x hx
        have hxg : x.schemaId = gid := by
          have := (Bool.and_eq_true _ _).mp hx
          exact beq_iff_eq.mp this.1
        have hne : (x.schemaId == g) = false := by
          simp [hxg]
          exact fun e => hg e.symm
        constructor
        · simp [hne]
        · simp only [hxg]
          simp
          exact fun e => hg e.symm
      have h1 := countP_updateFirst_untouched huntouched
        (SchemaRepository.setAllInactiveBySchemaId gid st.schemas)
      simp only [schemaActiveCount]
      rw [h1]
      have h2 := schemaActiveCount_setAllInactive_other hg st.schemas
      have h3 := hs g
      simp only [schemaActiveCount] at h2 h3
      rw [h2]
      exact h3
  simp only [SchemaService.setActiveVersion]
  split
  · exact ⟨key, hc⟩
  · exact ⟨key, hc⟩

theorem deleteSchema_inv (id : String) (st : St) (h : LifecycleInv st) :
    LifecycleInv (SchemaService.deleteSchema id st).2 := by
  obtain ⟨hs, hc⟩ := h
  refine ⟨?_, hc⟩
  intro g
  simp only [SchemaService.deleteSchema]
  exact le_trans (schemaActiveCount_sublist (List.eraseP_sublist st.schemas) g) (hs g)

theorem deleteAllVersionsBySchemaId_inv (cf : Bool) (gid : String) (st : St)
    (h : LifecycleInv st) :
    LifecycleInv (SchemaService.deleteAllVersionsBySchemaId cf gid st).2 := by
  obtain ⟨hs, hc⟩ := h
  simp only [SchemaService.deleteAllVersionsBySchemaId]
  split
  · exact ⟨hs, hc⟩
  · simp only [awaitPublish_eq]
    refine ⟨?_, hc⟩
    intro g
    simp only [SchemaRepository.deleteAllVersionsBySchemaId]
    exact le_trans (schemaActiveCount_sublist (List.filter_sublist st.schemas) g) (hs g)

/-- `revalidate` touches only the validator cache. -/
theorem revalidate_state (ajv : Ajv) (sc dp : Bool) (vs : SchemaDoc) (nd : String)
    (st : St) :
    (ConfigurationService.revalidate ajv sc dp vs nd st).2.schemas = st.schemas ∧
    (ConfigurationService.revalidate ajv sc dp vs nd st).2.configs = st.configs ∧
    (ConfigurationService.revalidate ajv sc dp vs nd st).2.nextOid = st.nextOid := by
  unfold ConfigurationService.revalidate
  have hv := validateDataByVersion_state ajv vs.schemaId vs.version nd st
  split
  · split
    · rename_i heq
      rw [heq] at hv
      exact hv
    · rename_i heq
      rw [heq] at hv
      exact hv
  · split
    · split
      · rename_i heq
        rw [heq] at hv
        exact hv
      · rename_i heq
        rw [heq] at hv
        exact hv
    · exact ⟨rfl, rfl, rfl⟩

theorem createConfiguration_inv (ajv : Ajv) (cf : Bool) (cd : ConfigData) (st : St)
    (h : LifecycleInv st)
    (hfresh : ∀ c ∈ st.configs,
      c.configId ≠ ConfigurationService.generateConfigId st.nextOid) :
    LifecycleInv (ConfigurationService.createConfiguration ajv cf cd st).2 := by
  obtain ⟨hs, hc⟩ := h
  simp only [ConfigurationService.createConfiguration]
  split
  · exact ⟨hs, hc⟩
  · rename_i schema hschema
    have hv := validateDataByVersion_state ajv schema.schemaId schema.version cd.data st
    split
    · exact ⟨hs, hc⟩
    · split
      · exact ⟨hs, hc⟩
      · split
        · rename_i e st1 heq
          rw [heq] at hv
          have hv1 : st1.schemas = st.schemas := hv.1
          have hv2 : st1.configs = st.configs := hv.2.1
          exact ⟨fun g => by rw [hv1]; exact hs g, fun x => by rw [hv2]; exact hc x⟩
        · rename_i v st1 heq
          rw [heq] at hv
          have hv1 : st1.schemas = st.schemas := hv.1
          have hv2 : st1.configs = st.configs := hv.2.1
          have hv3 : st1.nextOid = st.nextOid := hv.2.2
          split
          · exact ⟨fun g => by rw [hv1]; exact hs g, fun x => by rw [hv2]; exact hc x⟩
          · simp only [awaitPublish_eq]
            refine ⟨fun g => by rw [hv1]; exact hs g, ?_⟩
            intro x
            rw [configActiveCount_append, configActiveCount_singleton]
            by_cases hx : (ConfigurationService.generateConfigId st1.nextOid == x) = true
            · have hzero : configActiveCount x st1.configs = 0 := by
                simp only [configActiveCount, List.countP_eq_zero]
                intro c hcmem
                have hmem2 : c ∈ st.configs := hv2 ▸ hcmem
                have hne := hfresh c hmem2
                have hxeq : x = ConfigurationService.generateConfigId st.nextOid := by
                  have hbe := beq_iff_eq.mp hx
                  rw [← hbe, hv3]
                simp [hxeq]
                intro hcx
                exact absurd hcx hne
              rw [hzero]
              split <;> omega
            · simp only [Bool.not_eq_true] at hx
              simp only [hx, Bool.false_and, Bool.false_eq_true, if_false]
              rw [hv2]
              have := hc x
              omega

theorem updateConfigurationByConfigId_inv (ajv : Ajv) (cf : Bool) (cid : String)
    (upd : ConfigUpdates) (st : St) (h : LifecycleInv st) :
    LifecycleInv (ConfigurationService.updateConfigurationByConfigId ajv cf cid upd st).2 := by
  obtain ⟨hs, hc⟩ := h
  simp only [ConfigurationService.updateConfigurationByConfigId]
  split
  · exact ⟨hs, hc⟩
  · rename_i existing hexisting
    split
    · exact ⟨hs, hc⟩
    · split
      · exact ⟨hs, hc⟩
      · split
        · exact ⟨hs, hc⟩
        · rename_i vschema0 hvs0
          split
          · exact ⟨hs, hc⟩
          · rename_i vschema hvs
            have hr := revalidate_state ajv (optChanged upd.schemaId existing.schemaId)
              upd.data.isSome vschema (upd.data.getD existing.data) st
            split
            · rename_i e s2 heq
              rw [heq] at hr
              have hr1 : s2.schemas = st.schemas := hr.1
              have hr2 : s2.configs = st.configs := hr.2.1
              exact ⟨fun g => by rw [hr1]; exact hs g, fun x => by rw [hr2]; exact hc x⟩
            · rename_i u s2 heq
              rw [heq] at hr
              have hr1 : s2.schemas = st.schemas := hr.1
              have hr2 : s2.configs = st.configs := hr.2.1
              simp only [awaitPublish_eq]
              refine ⟨fun g => by rw [hr1]; exact hs g, ?_⟩
              intro x
              apply configActiveCount_deactivate_append
              · rfl
              · intro y
                rw [hr2]
                exact hc y

theorem setActiveVersionConfig_inv (cf : Bool) (cid : String) (v : Nat) (st : St)
    (h : LifecycleInv st) :
    LifecycleInv (ConfigurationService.setActiveVersion cf cid v st).2 := by
  obtain ⟨hs, hc⟩ := h
  have key : ∀ x, configActiveCount x (ConfigurationRepository.setVersionActive cid v st.configs).2 ≤ 1 := by
    intro x
    simp only [ConfigurationRepository.setVersionActive]
    by_cases hx : x = cid
    · subst hx
      calc configActiveCount x (updateFirst _ _ (ConfigurationRepository.setAllInactiveByConfigId x st.configs)).2
          ≤ configActiveCount x (ConfigurationRepository.setAllInactiveByConfigId x st.configs) + 1 :=
            countP_updateFirst_le _ _ _ _
        _ ≤ 1 := by rw [configActiveCount_setAllInactive_self]
    · have huntouched : ∀ c : ConfigDoc, (c.configId == cid && c.version == v) = true →
          ((c.configId == x && c.active) = false ∧
           (({ c with active := true } : ConfigDoc).configId == x &&
             ({ c with active := true } : ConfigDoc).active) = false) := by
        intro c hcnd
        have hcg : c.configId = cid := by
          have := (Bool.and_eq_true _ _).mp hcnd
          exact beq_iff_eq.mp this.1
        have hne : (c.configId == x) = false := by
          simp [hcg]
          exact fun e => hx e.symm
        constructor
        · simp [hne]
        · simp only [hcg]
          simp
          exact fun e => hx e.symm
      have h1 := countP_updateFirst_untouched huntouched
        (ConfigurationRepository.setAllInactiveByConfigId cid st.configs)
      simp only [configActiveCount]
      rw [h1]
      have h2 := configActiveCount_setAllInactive_other hx st.configs
      have h3 := hc x
      simp only [configActiveCount] at h2 h3
      rw [h2]
      exact h3
  simp only [ConfigurationService.setActiveVersion]
  split
  · simp only [awaitPublish_eq]
    exact ⟨hs, key⟩
  · exact ⟨hs, key⟩

theorem deleteConfiguration_inv (cf : Bool) (id : String) (st : St)
    (h : LifecycleInv st) :
    LifecycleInv (ConfigurationService.deleteConfiguration cf id st).2 := by
  obtain ⟨hs, hc⟩ := h
  have key : ∀ x, configActiveCount x (st.configs.eraseP (fun c => c.id == id)) ≤ 1 :=
    fun x => le_trans (configActiveCount_sublist (List.eraseP_sublist st.configs) x) (hc x)
  simp only [ConfigurationService.deleteConfiguration]
  split
  · simp only [awaitPublish_eq]
    exact ⟨hs, key⟩
  · exact ⟨hs, key⟩

/-- Version 1 of schema group `schema_0`, stored with unique id `oid0`. -/
def exSchemaV1 : SchemaDoc :=
  { id := "oid0", schemaId := "schema_0", version := 1, active := true,
    type := "signal", name := "S", description := "", schema := "sdoc" }

/-- State holding just the schema `exSchemaV1`. -/
def exStOneSchema : St :=
  { schemas := [exSchemaV1], configs := [], validators := [], nextOid := 1 }

/-- Creation request pinning the schema version with unique id `oid0`. -/
def exConfigReq : ConfigData :=
  { schemaId := "oid0", type := "signal", name := "C", data := "d" }

/-- C1 scenario: the state right after the configuration was created. -/
def exStAfterCreate : St :=
  (ConfigurationService.createConfiguration ajvAll false exConfigReq exStOneSchema).2

/-- A stored configuration whose `schemaId` field holds `oid0`, the unique
id of `exSchemaV1` — i.e. a configuration pinned to a version of group
`schema_0`. -/
def exConfigRef : ConfigDoc :=
  { id := "oid1", configId := "config_0", version := 1, active := true,
    schemaId := "oid0", type := "signal", name := "C", data := "d" }

/-- C2 scenario: one schema version, one active configuration pinned to
it, the validator cached. -/
def exStReferenced : St :=
  { schemas := [exSchemaV1], configs := [exConfigRef],
    validators := [("oid0", "sdoc")], nextOid := 2 }

/-- C1, code bug.  Creating a configuration against the schema version
with unique id `oid0` succeeds, but the round-trip create → fetch →
`validateConfiguration` does not return `valid = true`: it throws
`Active schema with schemaId oid0 not found`, because
`validateConfiguration` passes the configuration's stored schema-version
unique id to `SchemaService.validateData`, which treats it as a GROUP id
and looks up `\x7b schemaId: oid0, active: true \x7d` — no schema document has
group id `oid0`.  (Had the lookup succeeded it would validate against the
group's ACTIVE version, not the pinned one.) -/
theorem C1_roundtrip_validation_fails :
    (ConfigurationService.createConfiguration ajvAll false exConfigReq exStOneSchema).1 =
      .ok { id := "oid2", configId := "config_1", version := 1, active := true,
            schemaId := "oid0", type := "signal", name := "C", data := "d" } ∧
    (exStAfterCreate.configs.find? (fun c => c.id == "oid2")).isSome = true ∧
    (ConfigurationService.validateConfiguration ajvAll "oid2" exStAfterCreate).1 =
      .error "Active schema with schemaId oid0 not found" := by
  decide

/-- C2, code bug.  `exStReferenced` holds an active configuration whose
stored reference `oid0` is the unique id of the only version of group
`schema_0`, yet `SchemaService.deleteAllVersionsBySchemaId` on that group
succeeds and removes every version: the referential guard queries
configurations whose stored `schemaId` FIELD equals the GROUP id
`schema_0`, but configurations store schema version unique ids, so the
guard finds nothing and no `ReferencedEntityError` is raised. -/
theorem C2_referential_guard_misses_reference :
    exConfigRef ∈ exStReferenced.configs ∧
    exConfigRef.active = true ∧
    exConfigRef.schemaId = exSchemaV1.id ∧
    exSchemaV1 ∈ exStReferenced.schemas ∧
    exSchemaV1.schemaId = "schema_0" ∧
    (SchemaService.deleteAllVersionsBySchemaId false "schema_0" exStReferenced).1 = .ok 1 ∧
    (SchemaService.deleteAllVersionsBySchemaId false "schema_0" exStReferenced).2.schemas = [] := by
  decide

/-- Version 2 of group `schema_0`, inactive, stored with unique id
`oid1`. -/
def exSchemaV2Inactive : SchemaDoc :=
  { id := "oid1", schemaId := "schema_0", version := 2, active := false,
    type := "signal", name := "S", description := "", schema := "sdoc2" }

/-- C3 counterexample state: group `schema_0` with active version 1 and
inactive version 2. -/
def exStTwoVersions : St :=
  { schemas := [exSchemaV1, exSchemaV2Inactive], configs := [],
    validators := [], nextOid := 2 }

/-- C3, counterexample.  The claim says a zero-active state is never
observable after any operation returns.  But after
`SchemaService.deleteSchema` deletes the active version (unique id
`oid0`) and returns `true`, group `schema_0` still has a version
(version 2) and zero active versions. -/
theorem C3_zero_active_observable :
    (SchemaService.deleteSchema "oid0" exStTwoVersions).1 = true ∧
    (SchemaService.deleteSchema "oid0" exStTwoVersions).2.schemas = [exSchemaV2Inactive] ∧
    schemaActiveCount "schema_0" (SchemaService.deleteSchema "oid0" exStTwoVersions).2.schemas = 0 := by
  decide

/-- C4, counterexample.  The claim says that when the requested version
number does not exist, `setActive` fails with `VersionNotFoundError` and
leaves the group's state unchanged.  In the code, requesting version 2 of
group `schema_0` (which only has version 1, active) returns `none`
without raising any error, and has ALREADY deactivated every version of
the group: the state is changed, leaving zero active versions. -/
theorem C4_missing_version_mutates_state :
    (SchemaService.setActiveVersion ajvAll "schema_0" 2 exStOneSchema).1 = none ∧
    (SchemaService.setActiveVersion ajvAll "schema_0" 2 exStOneSchema).2.schemas =
      [{ exSchemaV1 with active := false }] ∧
    (SchemaService.setActiveVersion ajvAll "schema_0" 2 exStOneSchema).2.schemas ≠
      exStOneSchema.schemas := by
  decide

/-- An INACTIVE configuration version pinned to `oid0`, the unique id of
`exSchemaV1`. -/
def exConfigRefInactive : ConfigDoc :=
  { id := "oid1", configId := "config_0", version := 1, active := false,
    schemaId := "oid0", type := "signal", name := "C", data := "d" }

/-- C6 counterexample state: one schema version and one inactive
configuration pinned to it. -/
def exStInactiveRef : St :=
  { schemas := [exSchemaV1], configs := [exConfigRefInactive],
    validators := [], nextOid := 2 }

/-- C6, counterexample.  The claim says the referential-guard count
includes configurations regardless of active flag.  In the code,
`getConfigurationsBySchemaSchemaId` filters on `active === true`: the
state holds exactly one configuration pinned to a version of group
`schema_0` (an inactive one), yet the function returns the empty list. -/
theorem C6_inactive_reference_not_counted :
    ConfigurationService.getConfigurationsBySchemaSchemaId "schema_0" exStInactiveRef = [] ∧
    (exStInactiveRef.configs.filter (fun c =>
      (exStInactiveRef.schemas.filter (fun d => d.schemaId == "schema_0")).any
        (fun d => d.id == c.schemaId))).length = 1 := by
  decide

/-- A schema group whose name is `aXb`. -/
def exSchemaNamedAXb : SchemaDoc :=
  { id := "oid0", schemaId := "schema_0", version := 1, active := true,
    type := "signal", name := "aXb", description := "", schema := "sdoc" }

/-- State holding the schema named `aXb` only. -/
def exStNamedAXb : St :=
  { schemas := [exSchemaNamedAXb], configs := [], validators := [], nextOid := 1 }

/-- A configuration named `aXb` pinned to `oid0`. -/
def exConfigNamedAXb : ConfigDoc :=
  { id := "oid1", configId := "config_0", version := 1, active := true,
    schemaId := "oid0", type := "signal", name := "aXb", data := "d" }

/-- State holding the schema named `aXb` and a configuration named
`aXb`. -/
def exStNamedAXbWithConfig : St :=
  { schemas := [exSchemaNamedAXb], configs := [exConfigNamedAXb],
    validators := [], nextOid := 2 }

/-- C9, confirmed.  The name-uniqueness lookups interpolate the supplied
name into a regular expression without escaping, so the `.` in the name
`a.b` matches any character: with only an entity literally named `aXb`
present, both `findByNameAndType` and the configuration duplicate check
report an existing entity for the distinct name `a.b`, and creation under
the name `a.b` is rejected as a duplicate even though no entity with
that literal name exists. -/
theorem C9_regex_duplicate_check :
    ("a.b" ≠ "aXb") ∧
    (exStNamedAXb.schemas.all (fun d => d.name != "a.b")) = true ∧
    (SchemaRepository.findByNameAndType "a.b" "signal" exStNamedAXb.schemas).isSome = true ∧
    (SchemaService.createSchemaWithVersion ajvAll false
      { name := "a.b", type := "signal", description := "", schema := "x" }
      1 true none exStNamedAXb).1 =
      .error "Schema with name a.b and type signal already exists" ∧
    (exStNamedAXbWithConfig.configs.all (fun c => c.name != "a.b")) = true ∧
    (ConfigurationRepository.findByNameAndSchemaId "a.b" "oid0"
      exStNamedAXbWithConfig.configs).isSome = true ∧
    (ConfigurationService.createConfiguration ajvAll false
      { schemaId := "oid0", type := "signal", name := "a.b", data := "d" }
      exStNamedAXbWithConfig).1 =
      .error "Configuration with name a.b for schema aXb already exists" := by
  decide

/-- A legacy stored configuration document: no `configId`, `version`,
`active`, or literal `id` field — only the Mongo `_id`. -/
def exRawLegacy : ConfigRawDoc :=
  { mongoId := "oid9", idField := none, configId := none,
    version := none, active := none, schemaId := "oid0", type := "signal",
    name := "Legacy", data := "d" }

/-- C10, code bug.  The claim (and the code's own comment, `Use id as
configId if not present`) says a document stored without `configId` is
returned with `configId` defaulted to the document's id.  The code reads
`rest.configId || rest.id`, but `rest` is the document spread WITHOUT
`_id`, and stored documents have no literal `id` field, so the fallback
is `undefined`: `toEntity` returns `configId = none`, not the document's
id.  The `version`/`active` defaults do work. -/
theorem C10_legacy_configId_defaults_undefined :
    (ConfigurationRepository.toEntity exRawLegacy).configId = none ∧
    (ConfigurationRepository.toEntity exRawLegacy).configId ≠ some exRawLegacy.mongoId ∧
    (ConfigurationRepository.toEntity exRawLegacy).version = 1 ∧
    (ConfigurationRepository.toEntity exRawLegacy).active = true := by
  decide

/-- The empty store. -/
def exStEmpty : St := { schemas := [], configs := [], validators := [], nextOid := 0 }

theorem exStEmpty_inv : LifecycleInv exStEmpty :=
  ⟨fun g => by simp [schemaActiveCount, exStEmpty], fun c => by simp [configActiveCount, exStEmpty]⟩

theorem exStOneSchema_inv : LifecycleInv exStOneSchema := by
  constructor
  · intro g
    show schemaActiveCount g [exSchemaV1] ≤ 1
    rw [schemaActiveCount_singleton]
    split <;> omega
  · intro c
    simp [configActiveCount, exStOneSchema]

/-- C3, as amended.  Every operation of either service preserves the
at-most-one-active-version-per-group invariant (a freshly created or
activated version deactivates its siblings first; deletions only shrink
the collections).  The original claim's further assertion that a
zero-active state is never observable after an operation returns is
refuted separately: deleting the active version, or `setActive` with a
nonexistent version number, leaves a group with zero active versions.
`createConfiguration` additionally assumes the generated `configId` is
fresh, which `Date.now()`-plus-randomness provides in the source. -/
theorem C3_at_most_one_active_preserved :
    (∀ ajv cf sd v a sid st, LifecycleInv st →
      LifecycleInv (SchemaService.createSchemaWithVersion ajv cf sd v a sid st).2) ∧
    (∀ ajv cf gid upd st, LifecycleInv st →
      LifecycleInv (SchemaService.updateSchemaBySchemaId ajv cf gid upd st).2) ∧
    (∀ ajv gid v st, LifecycleInv st →
      LifecycleInv (SchemaService.setActiveVersion ajv gid v st).2) ∧
    (∀ id st, LifecycleInv st →
      LifecycleInv (SchemaService.deleteSchema id st).2) ∧
    (∀ cf gid st, LifecycleInv st →
      LifecycleInv (SchemaService.deleteAllVersionsBySchemaId cf gid st).2) ∧
    (∀ ajv cf cd st, LifecycleInv st →
      (∀ c ∈ st.configs, c.configId ≠ ConfigurationService.generateConfigId st.nextOid) →
      LifecycleInv (ConfigurationService.createConfiguration ajv cf cd st).2) ∧
    (∀ ajv cf cid upd st, LifecycleInv st →
      LifecycleInv (ConfigurationService.updateConfigurationByConfigId ajv cf cid upd st).2) ∧
    (∀ cf cid v st, LifecycleInv st →
      LifecycleInv (ConfigurationService.setActiveVersion cf cid v st).2) ∧
    (∀ cf id st, LifecycleInv st →
      LifecycleInv (ConfigurationService.deleteConfiguration cf id st).2) :=
  ⟨fun ajv cf sd v a sid st h => createSchemaWithVersion_inv ajv cf sd v a sid st h,
   fun ajv cf gid upd st h => updateSchemaBySchemaId_inv ajv cf gid upd st h,
   fun ajv gid v st h => setActiveVersionSchema_inv ajv gid v st h,
   fun id st h => deleteSchema_inv id st h,
   fun cf gid st h => deleteAllVersionsBySchemaId_inv cf gid st h,
   fun ajv cf cd st h hf => createConfiguration_inv ajv cf cd st h hf,
   fun ajv cf cid upd st h => updateConfigurationByConfigId_inv ajv cf cid upd st h,
   fun cf cid v st h => setActiveVersionConfig_inv cf cid v st h,
   fun cf id st h => deleteConfiguration_inv cf id st h⟩

/-- Witness for C3: the preservation theorem applied at concrete states,
with every hypothesis discharged there. -/
theorem C3_at_most_one_active_preserved_witness :
    LifecycleInv (SchemaService.createSchemaWithVersion ajvAll false
      { name := "S", type := "signal", description := "", schema := "sdoc" }
      1 true none exStEmpty).2 ∧
    LifecycleInv (ConfigurationService.createConfiguration ajvAll false
      exConfigReq exStOneSchema).2 ∧
    LifecycleInv (SchemaService.setActiveVersion ajvAll "schema_0" 2 exStOneSchema).2 :=
  ⟨C3_at_most_one_active_preserved.1 ajvAll false
      { name := "S", type := "signal", description := "", schema := "sdoc" }
      1 true none exStEmpty exStEmpty_inv,
   C3_at_most_one_active_preserved.2.2.2.2.2.1 ajvAll false exConfigReq exStOneSchema
      exStOneSchema_inv
      (by intro c hcmem; simp [exStOneSchema] at hcmem),
   C3_at_most_one_active_preserved.2.2.1 ajvAll "schema_0" 2 exStOneSchema
      exStOneSchema_inv⟩

/-- When no document of group `g` has version `v`, `setVersionActive`
finds nothing to activate but has already deactivated the whole group. -/
theorem setVersionActive_not_found {g : String} {v : Nat} {l : List SchemaDoc}
    (hno : ∀ x ∈ l, ¬(x.schemaId = g ∧ x.version = v)) :
    SchemaRepository.setVersionActive g v l =
      (none, SchemaRepository.setAllInactiveBySchemaId g l) := by
  have hall : ∀ y ∈ SchemaRepository.setAllInactiveBySchemaId g l,
      (fun d => d.schemaId == g && d.version == v) y = false := by
    intro y hy
    rcases setAllInactive_fields hy with ⟨x, hxl, hxs, hxv⟩
    by_contra hcon
    simp only [Bool.not_eq_false] at hcon
    have hand := (Bool.and_eq_true _ _).mp hcon
    exact hno x hxl ⟨hxs.trans (beq_iff_eq.mp hand.1), hxv.trans (beq_iff_eq.mp hand.2)⟩
  simp only [SchemaRepository.setVersionActive]
  exact updateFirst_of_all_false hall

/-- When a document of group `g` with version `v` exists,
`setVersionActive` returns an activated document of that group and
version, and afterwards every active member of the group carries
version `v`. -/
theorem setVersionActive_found {g : String} {v : Nat} {l : List SchemaDoc} {d0 : SchemaDoc}
    (h0 : d0 ∈ l) (hg : d0.schemaId = g) (hv : d0.version = v) :
    ∃ d, (SchemaRepository.setVersionActive g v l).1 = some d ∧
      d.schemaId = g ∧ d.version = v ∧ d.active = true ∧
      d ∈ (SchemaRepository.setVersionActive g v l).2 ∧
      ∀ e ∈ (SchemaRepository.setVersionActive g v l).2,
        e.schemaId = g → e.active = true → e.version = v := by
  rcases setAllInactive_image (g := g) h0 with ⟨e, he, hes, hev⟩
  have hpe : (e.schemaId == g && e.version == v) = true := by
    simp [hes, hev, hg, hv]
  rcases updateFirst_found (p := fun d => d.schemaId == g && d.version == v)
    (f := fun d => ({ d with active := true } : SchemaDoc)) he hpe
    with ⟨d, hd1, hd2, y, hy, hpy, hdy⟩
  have hyand := (Bool.and_eq_true _ _).mp hpy
  have hyg : y.schemaId = g := beq_iff_eq.mp hyand.1
  have hyv : y.version = v := beq_iff_eq.mp hyand.2
  refine ⟨d, ?_, ?_, ?_, ?_, ?_, ?_⟩
  · simpa [SchemaRepository.setVersionActive] using hd1
  · rw [hdy]; exact hyg
  · rw [hdy]; exact hyv
  · rw [hdy]
  · simpa [SchemaRepository.setVersionActive] using hd2
  · intro e2 he2 he2g he2a
    have he2mem : e2 ∈ (updateFirst (fun d => d.schemaId == g && d.version == v)
        (fun d => ({ d with active := true } : SchemaDoc))
        (SchemaRepository.setAllInactiveBySchemaId g l)).2 := by
      simpa [SchemaRepository.setVersionActive] using he2
    rcases updateFirst_mem he2mem with hin | ⟨x, _, hpx, hex⟩
    · have := setAllInactive_mem_inactive hin he2g
      rw [this] at he2a
      exact absurd he2a (by simp)
    · have hxand := (Bool.and_eq_true _ _).mp hpx
      rw [hex]
      exact beq_iff_eq.mp hxand.2

/-- C4, as amended.  When the requested version number does not exist in
the group, `setVersionActive` returns `none` — no `VersionNotFoundError`
is raised — and the group's state IS changed: every version has been
deactivated first (the service then surfaces the `none`).  When the
version exists, the repository deactivates all versions and returns the
requested one activated, and afterwards the group's only possible active
version number is the requested one. -/
theorem C4_setActive_spec_amended :
    (∀ (g : String) (v : Nat) (l : List SchemaDoc),
      (∀ x ∈ l, ¬(x.schemaId = g ∧ x.version = v)) →
      SchemaRepository.setVersionActive g v l =
        (none, SchemaRepository.setAllInactiveBySchemaId g l)) ∧
    (∀ (g : String) (v : Nat) (l : List SchemaDoc) (d0 : SchemaDoc),
      d0 ∈ l → d0.schemaId = g → d0.version = v →
      ∃ d, (SchemaRepository.setVersionActive g v l).1 = some d ∧
        d.schemaId = g ∧ d.version = v ∧ d.active = true ∧
        d ∈ (SchemaRepository.setVersionActive g v l).2 ∧
        ∀ e ∈ (SchemaRepository.setVersionActive g v l).2,
          e.schemaId = g → e.active = true → e.version = v) ∧
    (∀ (ajv : Ajv) (g : String) (v : Nat) (st : St),
      (∀ x ∈ st.schemas, ¬(x.schemaId = g ∧ x.version = v)) →
      SchemaService.setActiveVersion ajv g v st =
        (none, { st with schemas := SchemaRepository.setAllInactiveBySchemaId g st.schemas })) := by
  refine ⟨fun g v l hno => setVersionActive_not_found hno,
    fun g v l d0 h0 hg hv => setVersionActive_found h0 hg hv,
    fun ajv g v st hno => ?_⟩
  have h1 := setVersionActive_not_found hno
  simp only [SchemaService.setActiveVersion, h1]

/-- Witness for C4: the amended specification applied to the concrete
one-version group, with each hypothesis discharged. -/
theorem C4_setActive_spec_amended_witness :
    SchemaRepository.setVersionActive "schema_0" 2 [exSchemaV1] =
      (none, SchemaRepository.setAllInactiveBySchemaId "schema_0" [exSchemaV1]) ∧
    (∃ d, (SchemaRepository.setVersionActive "schema_0" 1 [exSchemaV1]).1 = some d ∧
      d.schemaId = "schema_0" ∧ d.version = 1 ∧ d.active = true ∧
      d ∈ (SchemaRepository.setVersionActive "schema_0" 1 [exSchemaV1]).2 ∧
      ∀ e ∈ (SchemaRepository.setVersionActive "schema_0" 1 [exSchemaV1]).2,
        e.schemaId = "schema_0" → e.active = true → e.version = 1) ∧
    SchemaService.setActiveVersion ajvAll "schema_0" 2 exStOneSchema =
      (none, { exStOneSchema with
        schemas := SchemaRepository.setAllInactiveBySchemaId "schema_0" exStOneSchema.schemas }) :=
  ⟨C4_setActive_spec_amended.1 "schema_0" 2 [exSchemaV1] (by decide),
   C4_setActive_spec_amended.2.1 "schema_0" 1 [exSchemaV1] exSchemaV1
     (by simp) (by decide) (by decide),
   C4_setActive_spec_amended.2.2 ajvAll "schema_0" 2 exStOneSchema (by decide)⟩

/-- Successful schema update: the new version number is the previous
group maximum plus one. -/
theorem updateSchema_version_max {ajv : Ajv} {cf : Bool} {gid : String}
    {upd : SchemaUpdates} {st : St} {d : SchemaDoc} {st2 : St}
    (h : SchemaService.updateSchemaBySchemaId ajv cf gid upd st = (.ok d, st2)) :
    d.version = schemaMaxVersion gid st.schemas + 1 := by
  simp only [SchemaService.updateSchemaBySchemaId] at h
  split at h
  · simp at h
  · split at h
    · simp at h
    · rename_i existing hfind
      split at h
      · simp at h
      · split at h
        · simp at h
        · rw [awaitPublish_eq] at h
          simp only [Prod.mk.injEq, Except.ok.injEq] at h
          obtain ⟨h1, _⟩ := h
          simp only [SchemaRepository.findActiveBySchemaId] at hfind
          have hmem := List.mem_of_find?_eq_some hfind
          have hp := List.find?_some hfind
          have hgid : existing.schemaId = gid :=
            beq_iff_eq.mp ((Bool.and_eq_true _ _).mp hp).1
          rw [← h1]
          exact getNextVersion_eq_max_succ hmem hgid

/-- Successful configuration update: the new version number is the
previous group maximum plus one. -/
theorem updateConfig_version_max {ajv : Ajv} {cf : Bool} {cid : String}
    {upd : ConfigUpdates} {st : St} {d : ConfigDoc} {st2 : St}
    (h : ConfigurationService.updateConfigurationByConfigId ajv cf cid upd st = (.ok d, st2)) :
    d.version = configMaxVersion cid st.configs + 1 := by
  simp only [ConfigurationService.updateConfigurationByConfigId] at h
  split at h
  · simp at h
  · rename_i existing hfind
    split at h
    · simp at h
    · split at h
      · simp at h
      · split at h
        · simp at h
        · rename_i vschema0 hvs0
          split at h
          · simp at h
          · rename_i vschema hvs
            have hr := revalidate_state ajv (optChanged upd.schemaId existing.schemaId)
              upd.data.isSome vschema (upd.data.getD existing.data) st
            split at h
            · simp at h
            · rename_i u s2 heq
              rw [heq] at hr
              have hr2 : s2.configs = st.configs := hr.2.1
              rw [awaitPublish_eq] at h
              simp only [Prod.mk.injEq, Except.ok.injEq] at h
              obtain ⟨h1, _⟩ := h
              simp only [ConfigurationRepository.findActiveByConfigId] at hfind
              have hmem := List.mem_of_find?_eq_some hfind
              have hp := List.find?_some hfind
              have hcid : existing.configId = cid :=
                beq_iff_eq.mp ((Bool.and_eq_true _ _).mp hp).1
              rw [← h1]
              show ConfigurationRepository.getNextVersion cid s2.configs =
                configMaxVersion cid st.configs + 1
              rw [hr2]
              exact cfgNextVersion_eq_max_succ hmem hcid

/-- C5, confirmed.  Whenever creating a next version of a group that
already has versions completes successfully — a schema update or a
configuration update — the new version's number equals the maximum
existing version number in that group plus one. -/
theorem C5_next_version_is_max_plus_one :
    (∀ (ajv : Ajv) (cf : Bool) (gid : String) (upd : SchemaUpdates) (st : St)
      (d : SchemaDoc) (st2 : St),
      SchemaService.updateSchemaBySchemaId ajv cf gid upd st = (.ok d, st2) →
      d.version = schemaMaxVersion gid st.schemas + 1) ∧
    (∀ (ajv : Ajv) (cf : Bool) (cid : String) (upd : ConfigUpdates) (st : St)
      (d : ConfigDoc) (st2 : St),
      ConfigurationService.updateConfigurationByConfigId ajv cf cid upd st = (.ok d, st2) →
      d.version = configMaxVersion cid st.configs + 1) :=
  ⟨fun _ _ _ _ _ _ _ h => updateSchema_version_max h,
   fun _ _ _ _ _ _ _ h => updateConfig_version_max h⟩

/-- Inactive version 1 of group `schema_0`. -/
def exSchemaV1Inactive : SchemaDoc :=
  { id := "oid0", schemaId := "schema_0", version := 1, active := false,
    type := "signal", name := "S", description := "", schema := "sdoc" }

/-- Active version 2 of group `schema_0`, unique id `oid1`. -/
def exSchemaV2Active : SchemaDoc :=
  { id := "oid1", schemaId := "schema_0", version := 2, active := true,
    type := "signal", name := "S", description := "", schema := "sdoc2" }

/-- C5 witness state: group `schema_0` with versions 1 (inactive) and 2
(active). -/
def exStC5 : St :=
  { schemas := [exSchemaV1Inactive, exSchemaV2Active], configs := [],
    validators := [], nextOid := 2 }

/-- The update request used in the C5 witness. -/
def exUpdReq : SchemaUpdates :=
  { name := none, type := none, description := none, schema := some "sdoc3" }

/-- The schema version the C5 witness expects to be created. -/
def exUpdatedSchemaDoc : SchemaDoc :=
  { id := "oid2", schemaId := "schema_0", version := 3, active := true,
    type := "signal", name := "S", description := "", schema := "sdoc3" }

/-- C5 witness state for the configuration part: the same group plus one
active configuration pinned to version 2. -/
def exConfigOnV2 : ConfigDoc :=
  { id := "oid2", configId := "config_0", version := 1, active := true,
    schemaId := "oid1", type := "signal", name := "C", data := "d" }

def exStC5cfg : St :=
  { schemas := [exSchemaV1Inactive, exSchemaV2Active], configs := [exConfigOnV2],
    validators := [], nextOid := 3 }

/-- The configuration update request used in the C5 witness. -/
def exCfgUpdReq : ConfigUpdates :=
  { name := none, type := none, schemaId := none, data := some "d2" }

/-- The configuration version the C5 witness expects to be created. -/
def exUpdatedConfigDoc : ConfigDoc :=
  { id := "oid3", configId := "config_0", version := 2, active := true,
    schemaId := "oid1", type := "signal", name := "C", data := "d2" }

/-- Witness for C5: both parts applied at concrete successful updates. -/
theorem C5_next_version_is_max_plus_one_witness :
    exUpdatedSchemaDoc.version = schemaMaxVersion "schema_0" exStC5.schemas + 1 ∧
    exUpdatedConfigDoc.version = configMaxVersion "config_0" exStC5cfg.configs + 1 :=
  ⟨C5_next_version_is_max_plus_one.1 ajvAll false "schema_0" exUpdReq exStC5
      exUpdatedSchemaDoc
      (SchemaService.updateSchemaBySchemaId ajvAll false "schema_0" exUpdReq exStC5).2
      (by decide),
   C5_next_version_is_max_plus_one.2 ajvAll false "config_0" exCfgUpdReq exStC5cfg
      exUpdatedConfigDoc
      (ConfigurationService.updateConfigurationByConfigId ajvAll false "config_0"
        exCfgUpdReq exStC5cfg).2
      (by decide)⟩

/-- C6, as amended.  The reference lookup
`getConfigurationsBySchemaSchemaId` returns exactly the ACTIVE stored
configurations whose stored schema reference is the unique id of some
version of the group — inactive configurations are excluded, contrary to
the original claim's `regardless of active` clause. -/
theorem C6_reference_count_amended (st : St) (g : String) (c : ConfigDoc) :
    c ∈ ConfigurationService.getConfigurationsBySchemaSchemaId g st ↔
      c ∈ st.configs ∧ c.active = true ∧
        ∃ d ∈ st.schemas, d.schemaId = g ∧ d.id = c.schemaId := by
  simp only [ConfigurationService.getConfigurationsBySchemaSchemaId,
    SchemaService.getAllVersionsBySchemaId, SchemaRepository.findAllVersionsBySchemaId]
  rw [List.mem_filter]
  constructor
  · rintro ⟨hcmem, hcond⟩
    have hand := (Bool.and_eq_true _ _).mp hcond
    have hactive : c.active = true := by simpa using hand.2
    have hcontains := hand.1
    rw [List.contains_iff_exists_mem_beq] at hcontains
    rcases hcontains with ⟨a, ha, hbeq⟩
    rcases List.mem_map.mp ha with ⟨d, hd, hda⟩
    have hd2 := (mem_sortDescBy _ _ _).mp hd
    rcases List.mem_filter.mp hd2 with ⟨hdmem, hdg⟩
    refine ⟨hcmem, hactive, d, hdmem, beq_iff_eq.mp hdg, ?_⟩
    rw [hda]
    exact (beq_iff_eq.mp hbeq).symm
  · rintro ⟨hcmem, hactive, d, hdmem, hdg, hdid⟩
    refine ⟨hcmem, (Bool.and_eq_true _ _).mpr ⟨?_, by simp [hactive]⟩⟩
    rw [List.contains_iff_exists_mem_beq]
    refine ⟨d.id, ?_, by simp [hdid]⟩
    apply List.mem_map.mpr
    refine ⟨d, ?_, rfl⟩
    apply (mem_sortDescBy _ _ _).mpr
    exact List.mem_filter.mpr ⟨hdmem, by simp [hdg]⟩

/-- Successful schema update keeps the group's name. -/
theorem updateSchema_keeps_name {ajv : Ajv} {cf : Bool} {gid : String}
    {upd : SchemaUpdates} {st : St} {d : SchemaDoc} {st2 : St}
    (h : SchemaService.updateSchemaBySchemaId ajv cf gid upd st = (.ok d, st2)) :
    ∃ existing, SchemaRepository.findActiveBySchemaId gid st.schemas = some existing ∧
      d.name = existing.name := by
  simp only [SchemaService.updateSchemaBySchemaId] at h
  split at h
  · simp at h
  · rename_i hname
    split at h
    · simp at h
    · rename_i existing hfind
      split at h
      · simp at h
      · split at h
        · simp at h
        · rw [awaitPublish_eq] at h
          simp only [Prod.mk.injEq, Except.ok.injEq] at h
          obtain ⟨h1, _⟩ := h
          refine ⟨existing, hfind, ?_⟩
          rw [← h1]
          have hn : upd.name = none := by
            cases hu : upd.name with
            | none => rfl
            | some s => rw [hu] at hname; simp at hname
          show (upd.name.getD existing.name) = existing.name
          rw [hn]
          rfl

/-- Successful configuration update keeps the group's name. -/
theorem updateConfig_keeps_name {ajv : Ajv} {cf : Bool} {cid : String}
    {upd : ConfigUpdates} {st : St} {d : ConfigDoc} {st2 : St}
    (h : ConfigurationService.updateConfigurationByConfigId ajv cf cid upd st = (.ok d, st2)) :
    ∃ existing, ConfigurationRepository.findActiveByConfigId cid st.configs = some existing ∧
      d.name = existing.name := by
  simp only [ConfigurationService.updateConfigurationByConfigId] at h
  split at h
  · simp at h
  · rename_i existing hfind
    split at h
    · simp at h
    · split at h
      · simp at h
      · split at h
        · simp at h
        · split at h
          · simp at h
          · split at h
            · simp at h
            · rw [awaitPublish_eq] at h
              simp only [Prod.mk.injEq, Except.ok.injEq] at h
              obtain ⟨h1, _⟩ := h
              refine ⟨existing, hfind, ?_⟩
              rw [← h1]

/-- C7, confirmed.  Attempting to change the `name` field on
revise/update fails for both entity kinds with the name-immutability
rejection and leaves the state unchanged (no new version is created); on
the schema side any provided `name` — even an identical one — is
rejected.  Whenever an update succeeds, the stored name of the new
version equals the existing group's name. -/
theorem C7_name_immutable :
    (∀ (ajv : Ajv) (cf : Bool) (gid : String) (upd : SchemaUpdates) (st : St)
      (n : String), upd.name = some n →
      SchemaService.updateSchemaBySchemaId ajv cf gid upd st =
        (.error "Schema name cannot be updated. Name is used for uniqueness checks.", st)) ∧
    (∀ (ajv : Ajv) (cf : Bool) (cid : String) (upd : ConfigUpdates) (st : St)
      (n : String) (existing : ConfigDoc),
      ConfigurationRepository.findActiveByConfigId cid st.configs = some existing →
      upd.name = some n → n ≠ existing.name →
      ConfigurationService.updateConfigurationByConfigId ajv cf cid upd st =
        (.error "Configuration name cannot be updated. Name is used for uniqueness checks.", st)) ∧
    (∀ (ajv : Ajv) (cf : Bool) (gid : String) (upd : SchemaUpdates) (st : St)
      (d : SchemaDoc) (st2 : St),
      SchemaService.updateSchemaBySchemaId ajv cf gid upd st = (.ok d, st2) →
      ∃ existing, SchemaRepository.findActiveBySchemaId gid st.schemas = some existing ∧
        d.name = existing.name) ∧
    (∀ (ajv : Ajv) (cf : Bool) (cid : String) (upd : ConfigUpdates) (st : St)
      (d : ConfigDoc) (st2 : St),
      ConfigurationService.updateConfigurationByConfigId ajv cf cid upd st = (.ok d, st2) →
      ∃ existing, ConfigurationRepository.findActiveByConfigId cid st.configs = some existing ∧
        d.name = existing.name) := by
  refine ⟨?_, ?_, ?_, ?_⟩
  · intro ajv cf gid upd st n hn
    simp [SchemaService.updateSchemaBySchemaId, hn]
  · intro ajv cf cid upd st n existing hfind hn hne
    have hchanged : optChanged upd.name existing.name = true := by
      simp [optChanged, hn, hne]
    simp [ConfigurationService.updateConfigurationByConfigId, hfind, hchanged]
  · intro ajv cf gid upd st d st2 h
    exact updateSchema_keeps_name h
  · intro ajv cf cid upd st d st2 h
    exact updateConfig_keeps_name h

/-- A configuration state used by the C7 witness. -/
def exStC7cfg : St :=
  { schemas := [exSchemaV1], configs := [exConfigRef], validators := [], nextOid := 2 }

/-- Witness for C7: the four parts applied at concrete inputs, with each
hypothesis discharged there. -/
theorem C7_name_immutable_witness :
    SchemaService.updateSchemaBySchemaId ajvAll false "schema_0"
      { name := some "X", type := none, description := none, schema := none } exStOneSchema =
      (.error "Schema name cannot be updated. Name is used for uniqueness checks.",
        exStOneSchema) ∧
    ConfigurationService.updateConfigurationByConfigId ajvAll false "config_0"
      { name := some "X", type := none, schemaId := none, data := none } exStC7cfg =
      (.error "Configuration name cannot be updated. Name is used for uniqueness checks.",
        exStC7cfg) ∧
    (∃ existing, SchemaRepository.findActiveBySchemaId "schema_0" exStC5.schemas = some existing ∧
      exUpdatedSchemaDoc.name = existing.name) ∧
    (∃ existing, ConfigurationRepository.findActiveByConfigId "config_0" exStC5cfg.configs =
        some existing ∧ exUpdatedConfigDoc.name = existing.name) :=
  ⟨C7_name_immutable.1 ajvAll false "schema_0"
      { name := some "X", type := none, description := none, schema := none }
      exStOneSchema "X" rfl,
   C7_name_immutable.2.1 ajvAll false "config_0"
      { name := some "X", type := none, schemaId := none, data := none }
      exStC7cfg "X" exConfigRef (by decide) rfl (by decide),
   C7_name_immutable.2.2.1 ajvAll false "schema_0" exUpdReq exStC5 exUpdatedSchemaDoc
      (SchemaService.updateSchemaBySchemaId ajvAll false "schema_0" exUpdReq exStC5).2
      (by decide),
   C7_name_immutable.2.2.2 ajvAll false "config_0" exCfgUpdReq exStC5cfg exUpdatedConfigDoc
      (ConfigurationService.updateConfigurationByConfigId ajvAll false "config_0"
        exCfgUpdReq exStC5cfg).2
      (by decide)⟩

/-- C8, confirmed.  The notification publish wraps the channel publish in
try/catch and never rejects, and consequently the outcome of every
create, update, and delete operation is identical whether the underlying
channel publish succeeds or fails: a publish failure never fails the
operation. -/
theorem C8_publish_failure_never_fails_operation :
    (∀ b, NotificationService.publish b = .ok ()) ∧
    (∀ (ajv : Ajv) (b1 b2 : Bool) (sd : SchemaData) (v : Nat) (a : Bool)
      (sid : Option String) (st : St),
      SchemaService.createSchemaWithVersion ajv b1 sd v a sid st =
        SchemaService.createSchemaWithVersion ajv b2 sd v a sid st) ∧
    (∀ (ajv : Ajv) (b1 b2 : Bool) (gid : String) (upd : SchemaUpdates) (st : St),
      SchemaService.updateSchemaBySchemaId ajv b1 gid upd st =
        SchemaService.updateSchemaBySchemaId ajv b2 gid upd st) ∧
    (∀ (b1 b2 : Bool) (gid : String) (st : St),
      SchemaService.deleteAllVersionsBySchemaId b1 gid st =
        SchemaService.deleteAllVersionsBySchemaId b2 gid st) ∧
    (∀ (ajv : Ajv) (b1 b2 : Bool) (cd : ConfigData) (st : St),
      ConfigurationService.createConfiguration ajv b1 cd st =
        ConfigurationService.createConfiguration ajv b2 cd st) ∧
    (∀ (ajv : Ajv) (b1 b2 : Bool) (cid : String) (upd : ConfigUpdates) (st : St),
      ConfigurationService.updateConfigurationByConfigId ajv b1 cid upd st =
        ConfigurationService.updateConfigurationByConfigId ajv b2 cid upd st) ∧
    (∀ (b1 b2 : Bool) (cid : String) (v : Nat) (st : St),
      ConfigurationService.setActiveVersion b1 cid v st =
        ConfigurationService.setActiveVersion b2 cid v st) ∧
    (∀ (b1 b2 : Bool) (id : String) (st : St),
      ConfigurationService.deleteConfiguration b1 id st =
        ConfigurationService.deleteConfiguration b2 id st) := by
  refine ⟨fun b => publish_eq_ok b, ?_, ?_, ?_, ?_, ?_, ?_, ?_⟩
  · intro ajv b1 b2 sd v a sid st
    simp only [SchemaService.createSchemaWithVersion, awaitPublish_eq]
  · intro ajv b1 b2 gid upd st
    simp only [SchemaService.updateSchemaBySchemaId, awaitPublish_eq]
  · intro b1 b2 gid st
    simp only [SchemaService.deleteAllVersionsBySchemaId, awaitPublish_eq]
  · intro ajv b1 b2 cd st
    simp only [ConfigurationService.createConfiguration, awaitPublish_eq]
  · intro ajv b1 b2 cid upd st
    simp only [ConfigurationService.updateConfigurationByConfigId, awaitPublish_eq]
  · intro b1 b2 cid v st
    simp only [ConfigurationService.setActiveVersion, awaitPublish_eq]
  · intro b1 b2 id st
    simp only [ConfigurationService.deleteConfiguration, awaitPublish_eq]

end SchemaValidator
